import Mathlib

/-!
# Verification of the scrutiny embedded agent core

Shallow embedding of the scrutiny embedded-agent firmware core
(`src/firmware/src/scrutiny_main_handler.cpp`,
`src/firmware/src/protocol/scrutiny_comm_handler.cpp`,
`src/firmware/src/protocol/scrutiny_codec_v1_0.cpp`) together with proofs
about its request dispatching, memory-control policy and byte-stream
framing state machine.

Machine integers are modelled as `Nat`; bytes carry the invariant `< 256`
as hypotheses where needed, and 64-bit pointer arithmetic is reduced
`% 2 ^ 64` where the C code can wrap.
-/

namespace Scrutiny

/-! ## Bit helpers -/

/-- `(a <<< k) ||| b` is `a * 2 ^ k + b` when `b` fits in `k` bits.  This is the
arithmetic content of the big-endian byte (re)assembly done all over the codec. -/
theorem shiftLeft_lor_eq_add (k a b : Nat) (hb : b < 2 ^ k) :
    a <<< k ||| b = a * 2 ^ k + b := by
  induction k generalizing a b with
  | zero =>
    have : b = 0 := by omega
    subst this
    simp [Nat.shiftLeft_eq]
  | succ k ih =>
    have hb2 : b / 2 < 2 ^ k := by
      have h2 : b < 2 * 2 ^ k := by
        have := hb; rw [pow_succ] at this; omega
      omega
    have h1 : a <<< (k + 1) = Nat.bit false (a <<< k) := by
      simp [Nat.bit, Nat.shiftLeft_eq, pow_succ]; ring
    conv_lhs => rw [← Nat.bit_decomp b]
    rw [h1, Nat.lor_bit]
    rw [Nat.bit_val, Nat.div2_val, ih a (b / 2) hb2]
    have hmod : (b.bodd).toNat = b % 2 := by rw [← Nat.mod_two_of_bodd]
    simp only [Bool.false_or, hmod]
    rw [pow_succ]
    have := Nat.div_add_mod b 2
    ring_nf
    omega

/-! ## Wire integer codecs (`scrutiny_protocol_tools.cpp`) -/

/-- `decode_16_bits_big_endian`: `(data[0] << 8) | data[1]`. -/
def decode_16_bits_big_endian (hi lo : Nat) : Nat :=
  hi <<< 8 ||| lo

/-- `decode_32_bits_big_endian` over four big-endian bytes. -/
def decode_32_bits_big_endian (b0 b1 b2 b3 : Nat) : Nat :=
  b0 <<< 24 ||| b1 <<< 16 ||| b2 <<< 8 ||| b3

/-- `decode_address_big_endian`: big-endian reassembly of the first
`addrSize` bytes of `l` (`addrSize = sizeof(void*)` on the target). -/
def decode_address_big_endian (addrSize : Nat) (l : List Nat) : Nat :=
  (l.take addrSize).foldl (fun acc b => acc <<< 8 ||| b) 0

/-- `encode_16_bits_big_endian`: `[(v >> 8) & 0xFF, v & 0xFF]`. -/
def encode_16_bits_big_endian (v : Nat) : List Nat :=
  [(v >>> 8) &&& 0xFF, v &&& 0xFF]

/-- `encode_32_bits_big_endian`. -/
def encode_32_bits_big_endian (v : Nat) : List Nat :=
  [(v >>> 24) &&& 0xFF, (v >>> 16) &&& 0xFF, (v >>> 8) &&& 0xFF, v &&& 0xFF]

/-- `encode_address_big_endian`: the address encoded big-endian on
`addrSize` bytes, most significant byte first. -/
def encode_address_big_endian (addrSize : Nat) (v : Nat) : List Nat :=
  (List.range addrSize).map (fun i => (v >>> (8 * (addrSize - 1 - i))) &&& 0xFF)

theorem decode_16_eq (hi lo : Nat) (h : lo < 256) :
    decode_16_bits_big_endian hi lo = 256 * hi + lo := by
  unfold decode_16_bits_big_endian
  rw [shiftLeft_lor_eq_add 8 hi lo (by omega)]
  ring

/-! ## CRC-32

Modelled from the spec: the CRC-32 implementation (`scrutiny_crc`) is not
present under `src/`; the spec fixes it as the conventional CRC-32
(IEEE 802.3 polynomial, reflected, init `0xFFFFFFFF`, xor-out `0xFFFFFFFF`,
chainable), so `crc32` below is that function, and the two chained calls
made by `CommHandler::check_crc` / `add_crc` compute `crc32` of
`header ++ data`. -/

/-- One bit step of the reflected CRC-32 (polynomial `0xEDB88320`). -/
def crc32_bit (c : Nat) : Nat :=
  if c % 2 = 1 then (c >>> 1) ^^^ 0xEDB88320 else c >>> 1

/-- One byte step of CRC-32. -/
def crc32_byte (crc b : Nat) : Nat :=
  crc32_bit (crc32_bit (crc32_bit (crc32_bit
    (crc32_bit (crc32_bit (crc32_bit (crc32_bit (crc ^^^ (b &&& 0xFF)))))))))

/-- CRC-32 of a byte sequence. -/
def crc32 (data : List Nat) : Nat :=
  (data.foldl crc32_byte 0xFFFFFFFF) ^^^ 0xFFFFFFFF

/-! ## Protocol constants (`scrutiny_protocol_definitions.h`, spec section 6)

The response-code enumeration in the checked-in header stops at
`FailureToProceed = 5`; the `Forbidden` code and the CommControl /
MemoryControl subfunction enumerations used by the `.cpp` files are not
declared under `src/`, so their numeric values are modelled from the
spec's section 6. -/

def eResponseCode_OK : Nat := 0

def eResponseCode_InvalidRequest : Nat := 1

def eResponseCode_UnsupportedFeature : Nat := 2

def eResponseCode_Overflow : Nat := 3

def eResponseCode_Busy : Nat := 4

def eResponseCode_FailureToProceed : Nat := 5

/-- Modelled from the spec: `Forbidden = 6` (section 6 response codes). -/
def eResponseCode_Forbidden : Nat := 6

def eCmdGetInfo : Nat := 0x01

def eCmdCommControl : Nat := 0x02

def eCmdMemoryControl : Nat := 0x03

def eCmdDataLogControl : Nat := 0x04

def eCmdUserCommand : Nat := 0x05

/-- Modelled from the spec: CommControl subfunction ids (section 6). -/
def eSubfnDiscover : Nat := 1

def eSubfnHeartbeat : Nat := 2

def eSubfnGetParams : Nat := 3

def eSubfnConnect : Nat := 4

def eSubfnDisconnect : Nat := 5

/-- Modelled from the spec: MemoryControl subfunction ids (section 6). -/
def eSubfnRead : Nat := 1

def eSubfnWrite : Nat := 2

def eSubfnGetProtocolVersion : Nat := 1

def eSubfnGetSoftwareId : Nat := 2

def eSubfnGetSupportedFeatures : Nat := 3

/-- Modelled from the spec: `DISCOVER_MAGIC` is a fixed 4-byte constant
(`CommControl::DISCOVER_MAGIC`); its definition is not under `src/`, only
`sizeof(...) = 4` is used by the code, so a concrete 4-byte value is fixed
here.  No theorem below depends on the particular bytes. -/
def DISCOVER_MAGIC : List Nat := [0x7E, 0x18, 0xFC, 0x68]

/-- Modelled from the spec: `CONNECT_MAGIC` is a fixed 4-byte constant
(`CommControl::CONNECT_MAGIC`); as with `DISCOVER_MAGIC` only its size
matters to the code under `src/`. -/
def CONNECT_MAGIC : List Nat := [0x82, 0x90, 0x22, 0x66]

/-! ## Address-range policy (`scrutiny_config.h`, `MainHandler::touches_*_region`) -/

/-- `AddressRange { uint64_t start; uint64_t end; bool set; }`
(`end` is a Lean keyword, renamed `end_`). -/
structure AddressRange where
  start : Nat
  end_ : Nat
  set : Bool

/-- The scan loop shared by `MainHandler::touches_forbidden_region` and
`touches_readonly_region`: ranges are visited in array order; a range with
`set = false` stops the scan; a set range is hit when either block endpoint
lies inside it (both bounds inclusive). -/
def region_scan (block_start block_end : Nat) : List AddressRange → Bool
  | [] => false
  | r :: rest =>
    if r.set then
      if (decide (block_start ≥ r.start) && decide (block_start ≤ r.end_)) ||
         (decide (block_end ≥ r.start) && decide (block_end ≤ r.end_)) then true
      else region_scan block_start block_end rest
    else false

/-- `block_end = block_start + length` in `uint64_t` arithmetic
(one past the last byte; the C code computes the exclusive end). -/
def block_end_addr (block_start length : Nat) : Nat :=
  (block_start + length) % 2 ^ 64

/-- `MainHandler::touches_forbidden_region` applied to a block
`(addr, len)` given the configured forbidden ranges. -/
def touches_forbidden_region (forbidden_ranges : List AddressRange) (addr len : Nat) : Bool :=
  region_scan addr (block_end_addr addr len) forbidden_ranges

/-- `MainHandler::touches_readonly_region`. -/
def touches_readonly_region (readonly_ranges : List AddressRange) (addr len : Nat) : Bool :=
  region_scan addr (block_end_addr addr len) readonly_ranges

/-! ## Target memory -/

/-- Target memory as a flat byte map.  `mem_write mem addr src` is the
effect of `memcpy(addr, src.data, src.length)`. -/
def mem_write (mem : Nat → Nat) (addr : Nat) (src : List Nat) : Nat → Nat :=
  fun a => if addr ≤ a ∧ a < addr + src.length then src.getD (a - addr) 0 else mem a

/-- The bytes `memcpy` reads from memory at `[addr, addr + len)`. -/
def mem_read (mem : Nat → Nat) (addr len : Nat) : List Nat :=
  (List.range len).map (fun i => mem (addr + i))

/-! ## Memory-control block parsers (`scrutiny_codec_v1_0.cpp`) -/

/-- `ReadMemoryBlocksRequestParser::validate`: the payload must be a
non-empty sequence of `ADDR(addrSize) LEN(2)` records with no remainder.
Returns `true` iff the parser is left valid (`m_invalid = false`). -/
def read_blocks_layout_valid (addrSize : Nat) (rem : List Nat) : Bool :=
  if rem.length < addrSize + 2 then false
  else if rem.length = addrSize + 2 then true
  else read_blocks_layout_valid addrSize (rem.drop (addrSize + 2))
termination_by rem.length
decreasing_by
  simp only [List.length_drop]
  omega

/-- The 16-bit block length field located after the address bytes. -/
def block_len_field (addrSize : Nat) (rem : List Nat) : Nat :=
  decode_16_bits_big_endian (rem.getD addrSize 0) (rem.getD (addrSize + 1) 0)

/-- `WriteMemoryBlocksRequestParser::validate`: the payload must be a
non-empty sequence of `ADDR(addrSize) LEN(2) BYTES(LEN)` records with no
remainder. -/
def write_blocks_layout_valid (addrSize : Nat) (rem : List Nat) : Bool :=
  if rem.length < addrSize + 2 then false
  else
    let len := block_len_field addrSize rem
    let rest := rem.drop (addrSize + 2)
    if rest.length < len then false
    else if rest.length = len then true
    else write_blocks_layout_valid addrSize (rest.drop len)
termination_by rem.length
decreasing_by
  simp only [List.length_drop]
  omega

/-- The successive `(address, length)` pairs yielded by
`ReadMemoryBlocksRequestParser::next` on a layout-valid payload. -/
def read_blocks (addrSize : Nat) (rem : List Nat) : List (Nat × Nat) :=
  if rem.length < addrSize + 2 then []
  else (decode_address_big_endian addrSize rem, block_len_field addrSize rem) ::
    read_blocks addrSize (rem.drop (addrSize + 2))
termination_by rem.length
decreasing_by
  simp only [List.length_drop]
  omega

/-- The successive `(address, length, source_data)` triples yielded by
`WriteMemoryBlocksRequestParser::next` on a layout-valid payload. -/
def write_blocks (addrSize : Nat) (rem : List Nat) : List (Nat × Nat × List Nat) :=
  if rem.length < addrSize + 2 then []
  else
    let len := block_len_field addrSize rem
    let rest := rem.drop (addrSize + 2)
    if rest.length < len then []
    else (decode_address_big_endian addrSize rem, len, rest.take len) ::
      write_blocks addrSize (rest.drop len)
termination_by rem.length
decreasing_by
  simp only [List.length_drop]
  omega

/-! ## `MainHandler::process_memory_control` -/

/-- Result of one memory-control dispatch: wire response code, response
payload bytes, final memory, and the request-order indices of the blocks
whose memory transfer was actually performed. -/
structure MemControlResult where
  code : Nat
  resp : List Nat
  mem : Nat → Nat
  performed : List Nat

/-- The `eSubfnRead` loop of `MainHandler::process_memory_control`: for
each block, parser validity, then the forbidden-range check, then the
response encoder (`ReadMemoryBlocksResponseEncoder::write`, which reads
target memory and can set `overflow` against `tx_limit`); the first failed
check breaks with its code. -/
def read_mem_loop (addrSize tx_limit : Nat) (forb : List AddressRange) (mem : Nat → Nat)
    (rem resp : List Nat) (idx : Nat) (perf : List Nat) : MemControlResult :=
  if rem.isEmpty then ⟨eResponseCode_OK, resp, mem, perf⟩
  else if rem.length < addrSize + 2 then ⟨eResponseCode_InvalidRequest, resp, mem, perf⟩
  else
    let addr := decode_address_big_endian addrSize rem
    let len := block_len_field addrSize rem
    if touches_forbidden_region forb addr len then ⟨eResponseCode_Forbidden, resp, mem, perf⟩
    else if resp.length + addrSize + 2 + len > tx_limit then
      ⟨eResponseCode_Overflow, resp, mem, perf⟩
    else read_mem_loop addrSize tx_limit forb mem (rem.drop (addrSize + 2))
      (resp ++ encode_address_big_endian addrSize addr ++ encode_16_bits_big_endian len ++
        mem_read mem addr len)
      (idx + 1) (perf ++ [idx])
termination_by rem.length
decreasing_by
  simp only [List.length_drop]
  omega

/-- The `eSubfnWrite` loop of `MainHandler::process_memory_control`: per
block, parser validity, the forbidden-range check, the readonly-range
check, the response encoder's overflow check, and only then
`memcpy(block.start_address, block.source_data, block.length)`. -/
def write_mem_loop (addrSize tx_limit : Nat) (forb ro : List AddressRange) (mem : Nat → Nat)
    (rem resp : List Nat) (idx : Nat) (perf : List Nat) : MemControlResult :=
  if rem.isEmpty then ⟨eResponseCode_OK, resp, mem, perf⟩
  else if rem.length < addrSize + 2 then ⟨eResponseCode_InvalidRequest, resp, mem, perf⟩
  else
    let addr := decode_address_big_endian addrSize rem
    let len := block_len_field addrSize rem
    let rest := rem.drop (addrSize + 2)
    if rest.length < len then ⟨eResponseCode_InvalidRequest, resp, mem, perf⟩
    else if touches_forbidden_region forb addr len then ⟨eResponseCode_Forbidden, resp, mem, perf⟩
    else if touches_readonly_region ro addr len then ⟨eResponseCode_Forbidden, resp, mem, perf⟩
    else if resp.length + addrSize + 2 > tx_limit then ⟨eResponseCode_Overflow, resp, mem, perf⟩
    else write_mem_loop addrSize tx_limit forb ro (mem_write mem addr (rest.take len))
      (rest.drop len)
      (resp ++ encode_address_big_endian addrSize addr ++ encode_16_bits_big_endian len)
      (idx + 1) (perf ++ [idx])
termination_by rem.length
decreasing_by
  simp only [List.length_drop]
  omega

/-- `MainHandler::process_memory_control`: dispatch on the subfunction;
each branch first validates the whole payload layout
(`...RequestParser::init` / `validate`) and answers `InvalidRequest` when
it is broken, then runs the per-block loop.  The `default` branch leaves
the initial `FailureToProceed` code (the in-switch `UnsupportedFeature`
store is overwritten by `process_request`, see `process_request`). -/
def process_memory_control (addrSize tx_limit : Nat) (forb ro : List AddressRange)
    (mem : Nat → Nat) (subfn : Nat) (payload : List Nat) : MemControlResult :=
  if subfn = eSubfnRead then
    if read_blocks_layout_valid addrSize payload then
      read_mem_loop addrSize tx_limit forb mem payload [] 0 []
    else ⟨eResponseCode_InvalidRequest, [], mem, []⟩
  else if subfn = eSubfnWrite then
    if write_blocks_layout_valid addrSize payload then
      write_mem_loop addrSize tx_limit forb ro mem payload [] 0 []
    else ⟨eResponseCode_InvalidRequest, [], mem, []⟩
  else ⟨eResponseCode_FailureToProceed, [], mem, []⟩

/-! ## Requests, responses, configuration -/

/-- `Protocol::Request` as seen by the dispatcher; `data` is the payload
view (its length is the request's `data_length`). -/
structure Request where
  command_id : Nat
  subfunction_id : Nat
  data : List Nat
  valid : Bool

/-- `Protocol::Response`. -/
structure Response where
  command_id : Nat
  subfunction_id : Nat
  response_code : Nat
  data_length : Nat
  data : List Nat
  valid : Bool

/-- Compile-time build parameters (`scrutiny_setup.h` and the software id
provided by the host build). -/
structure BuildParams where
  addr_size : Nat
  rx_buffer_size : Nat
  tx_buffer_size : Nat
  max_bitrate : Nat
  heartbeat_timeout : Nat
  comm_rx_timeout : Nat
  software_id : List Nat
  forbidden_ranges : List AddressRange
  readonly_ranges : List AddressRange

/-! ## Session state

Modelled from the spec: the `CommHandler` session operations
(`connect`, `heartbeat`, `get_session_id`, `is_connected`) are declared
and called by `scrutiny_main_handler.cpp` but their definitions are not
under `src/`; spec section 4.4 fixes their behaviour. -/

/-- The session attributes held by the CommHandler (spec section 3). -/
structure Session where
  connected : Bool
  session_id : Nat
  last_heartbeat_timestamp : Nat

/-- Modelled from the spec: `CommHandler::heartbeat(challenge)` verifies
the session exists and stamps `last_heartbeat_ts` (section 4.4); the
session-id comparison itself is done by the caller in
`MainHandler::process_comm_control`. -/
def comm_heartbeat (now : Nat) (s : Session) : Bool × Session :=
  if s.connected then (true, { s with last_heartbeat_timestamp := now })
  else (false, s)

/-- Modelled from the spec: `CommHandler::connect()` fails if already
connected, otherwise records the freshly generated session id
(section 4.4); id generation is abstracted as the `new_session_id`
argument. -/
def comm_connect (now new_session_id : Nat) (s : Session) : Bool × Session :=
  if s.connected then (false, s)
  else (true, ⟨true, new_session_id, now⟩)

/-- The MainHandler-visible mutable state: the session (owned by the
CommHandler), the deferred-disconnect flag, and target memory. -/
structure MainState where
  session : Session
  disconnect_pending : Bool
  mem : Nat → Nat

/-! ## `MainHandler::process_get_info` -/

/-- `MainHandler::process_get_info`: returns the dispatch code and the
response payload.  `GetSupportedFeatures` has an empty case body, and the
`default` branch's `UnsupportedFeature` store into `response_code` is dead
(overwritten in `process_request`), so both leave the initial
`FailureToProceed`. -/
def process_get_info (P : BuildParams) (req : Request) : Nat × List Nat :=
  if req.subfunction_id = eSubfnGetProtocolVersion then
    if 2 > P.tx_buffer_size then (eResponseCode_FailureToProceed, [])
    else (eResponseCode_OK, [1, 0])
  else if req.subfunction_id = eSubfnGetSoftwareId then
    if P.software_id.length > P.tx_buffer_size then (eResponseCode_FailureToProceed, [])
    else (eResponseCode_OK, P.software_id)
  else if req.subfunction_id = eSubfnGetSupportedFeatures then
    (eResponseCode_FailureToProceed, [])
  else (eResponseCode_FailureToProceed, [])

/-! ## `MainHandler::process_comm_control` -/

/-- `MainHandler::process_comm_control`: returns the dispatch code, the
response payload, and the updated state.  Fixed-layout decoders
(`CodecV1_0::decode_request_comm_*`) reject any payload whose length
differs from the expected layout with `InvalidRequest`;
`decode_request_comm_connect` checks only the length (4) and never
compares the copied magic bytes with `CONNECT_MAGIC`. -/
def process_comm_control (P : BuildParams) (now new_session_id : Nat)
    (st : MainState) (req : Request) : Nat × List Nat × MainState :=
  if req.subfunction_id = eSubfnDiscover then
    -- decode_request_comm_discover: data_length must be magic(4) + challenge(4)
    if req.data.length ≠ 8 then (eResponseCode_InvalidRequest, [], st)
    else
      -- challenge_response[i] = ~challenge[i] (uint8 complement)
      let challenge_response := ((req.data.drop 4).take 4).map (fun b => b ^^^ 0xFF)
      if 8 > P.tx_buffer_size then (eResponseCode_FailureToProceed, [], st)
      else (eResponseCode_OK, DISCOVER_MAGIC ++ challenge_response, st)
  else if req.subfunction_id = eSubfnHeartbeat then
    -- decode_request_comm_heartbeat: data_length must be session_id(4) + challenge(2)
    if req.data.length ≠ 6 then (eResponseCode_InvalidRequest, [], st)
    else
      let sid := decode_32_bits_big_endian (req.data.getD 0 0) (req.data.getD 1 0)
        (req.data.getD 2 0) (req.data.getD 3 0)
      let challenge := decode_16_bits_big_endian (req.data.getD 4 0) (req.data.getD 5 0)
      if sid ≠ st.session.session_id then (eResponseCode_InvalidRequest, [], st)
      else
        let hb := comm_heartbeat now st.session
        if ¬hb.1 then (eResponseCode_InvalidRequest, [], { st with session := hb.2 })
        else if 6 > P.tx_buffer_size then
          (eResponseCode_FailureToProceed, [], { st with session := hb.2 })
        else
          -- challenge_response = ~challenge (uint16 complement)
          (eResponseCode_OK,
            encode_32_bits_big_endian hb.2.session_id ++
              encode_16_bits_big_endian (challenge ^^^ 0xFFFF),
            { st with session := hb.2 })
  else if req.subfunction_id = eSubfnGetParams then
    -- rx_buf_size(2) tx_buf_size(2) max_bitrate(4) heartbeat_timeout(4) comm_rx_timeout(4)
    if 16 > P.tx_buffer_size then (eResponseCode_FailureToProceed, [], st)
    else
      (eResponseCode_OK,
        encode_16_bits_big_endian P.rx_buffer_size ++
          encode_16_bits_big_endian P.tx_buffer_size ++
          encode_32_bits_big_endian P.max_bitrate ++
          encode_32_bits_big_endian P.heartbeat_timeout ++
          encode_32_bits_big_endian P.comm_rx_timeout,
        st)
  else if req.subfunction_id = eSubfnConnect then
    if req.data.length ≠ 4 then (eResponseCode_InvalidRequest, [], st)
    else if st.session.connected then (eResponseCode_Busy, [], st)
    else
      let c := comm_connect now new_session_id st.session
      if ¬c.1 then (eResponseCode_FailureToProceed, [], st)
      else if 8 > P.tx_buffer_size then
        (eResponseCode_FailureToProceed, [], { st with session := c.2 })
      else
        (eResponseCode_OK, CONNECT_MAGIC ++ encode_32_bits_big_endian c.2.session_id,
          { st with session := c.2 })
  else if req.subfunction_id = eSubfnDisconnect then
    -- decode_request_comm_disconnect: data_length must be session_id(4)
    if req.data.length ≠ 4 then (eResponseCode_InvalidRequest, [], st)
    else
      let sid := decode_32_bits_big_endian (req.data.getD 0 0) (req.data.getD 1 0)
        (req.data.getD 2 0) (req.data.getD 3 0)
      if st.session.connected then
        if st.session.session_id = sid then
          (eResponseCode_OK, [], { st with disconnect_pending := true })
        else (eResponseCode_InvalidRequest, [], st)
      else (eResponseCode_OK, [], st)
  else (eResponseCode_FailureToProceed, [], st)

/-! ## `MainHandler::process_request` -/

/-- `MainHandler::process_request`.  An invalid request yields a reset
(non-`valid`) response that is never sent.  Otherwise the response echoes
the command and subfunction ids, the command is dispatched, and afterwards
`response->response_code` is unconditionally overwritten with the dispatch
code (`response->response_code = static_cast<uint8_t>(code)`), so the
`UnsupportedFeature` stores made inside `default` branches are dead and an
unknown command or subfunction actually answers with the initial
`FailureToProceed` code; non-OK codes zero the data length. -/
def process_request (P : BuildParams) (now new_session_id : Nat)
    (st : MainState) (req : Request) : Response × MainState :=
  if ¬req.valid then (⟨0, 0, 0, 0, [], false⟩, st)
  else
    let r :=
      if req.command_id = eCmdGetInfo then
        let g := process_get_info P req
        (g.1, g.2, st)
      else if req.command_id = eCmdCommControl then
        process_comm_control P now new_session_id st req
      else if req.command_id = eCmdMemoryControl then
        let m := process_memory_control P.addr_size P.tx_buffer_size P.forbidden_ranges
          P.readonly_ranges st.mem req.subfunction_id req.data
        (m.code, m.resp, { st with mem := m.mem })
      else if req.command_id = eCmdDataLogControl then
        (eResponseCode_FailureToProceed, [], st)
      else if req.command_id = eCmdUserCommand then
        (eResponseCode_FailureToProceed, [], st)
      else (eResponseCode_FailureToProceed, [], st)
    if r.1 ≠ eResponseCode_OK then
      (⟨req.command_id, req.subfunction_id, r.1, 0, [], true⟩, r.2.2)
    else
      (⟨req.command_id, req.subfunction_id, r.1, r.2.1.length, r.2.1, true⟩, r.2.2)

/-! ## CommHandler receive state machine (`scrutiny_comm_handler.cpp`) -/

def SCRUTINY_BUFFER_SIZE : Nat := 256

def SCRUTINY_COMM_TIMEOUT_US : Nat := 50000

/-- `Timebase::is_elapsed`: `(now - timestamp) >= timeout` in `uint32_t`
wrap-around arithmetic. -/
def is_elapsed (now ts timeout : Nat) : Bool :=
  decide ((now % 2 ^ 32 + 2 ^ 32 - ts % 2 ^ 32) % 2 ^ 32 ≥ timeout)

/-- `CommHandler::State`. -/
inductive CommState where
  | idle
  | receiving
  | transmitting
deriving DecidableEq, Repr

/-- `CommHandler::RxFSMState`. -/
inductive RxFSMState where
  | waitForCommand
  | waitForSubfunction
  | waitForLength
  | waitForData
  | waitForCRC
  | waitForProcess
  | error
deriving DecidableEq, Repr

/-- `CommHandler::RxError`. -/
inductive RxError where
  | noError
  | overflow
deriving DecidableEq, Repr

/-- The fields of `Protocol::Request` owned by the CommHandler
(`data` is the shared buffer, kept in `CommRx.buffer`). -/
structure RxRequest where
  command_id : Nat
  subfunction_id : Nat
  data_length : Nat
  crc : Nat
  valid : Bool
deriving Repr

/-- The receive-side state of `CommHandler`. -/
structure CommRx where
  m_state : CommState
  m_rx_state : RxFSMState
  req : RxRequest
  buffer : Nat → Nat
  m_request_received : Bool
  m_crc_bytes_received : Nat
  m_length_bytes_received : Nat
  m_data_bytes_received : Nat
  m_last_rx_timestamp : Nat
  m_rx_error : RxError
  m_enabled : Bool

/-- The payload view of the active request: the first `data_length` bytes
of the shared buffer. -/
def request_payload (st : CommRx) : List Nat :=
  (List.range st.req.data_length).map st.buffer

/-- `CommHandler::check_crc`: CRC-32 over the four header bytes chained
with the payload, compared with the received CRC. -/
def check_crc (st : CommRx) : Bool :=
  crc32 ([st.req.command_id, st.req.subfunction_id,
    (st.req.data_length >>> 8) &&& 0xFF, st.req.data_length &&& 0xFF] ++
    request_payload st) == st.req.crc

/-- `CommHandler::check_must_enable`: the received frame must be a
CommControl Discover whose data is at least as long as
`DISCOVER_MAGIC` and starts with it. -/
def check_must_enable (st : CommRx) : Bool :=
  if st.req.command_id ≠ eCmdCommControl then false
  else if st.req.subfunction_id ≠ eSubfnDiscover then false
  else if st.req.data_length < DISCOVER_MAGIC.length then false
  else (List.range DISCOVER_MAGIC.length).map st.buffer == DISCOVER_MAGIC

/-- `CommHandler::reset_rx` (`Request::reset` clears everything except the
received CRC field; the shared buffer is not cleared). -/
def reset_rx (now : Nat) (st : CommRx) : CommRx :=
  { st with
    req := { command_id := 0, subfunction_id := 0, data_length := 0,
             crc := st.req.crc, valid := false }
    m_rx_state := .waitForCommand
    m_request_received := false
    m_crc_bytes_received := 0
    m_length_bytes_received := 0
    m_data_bytes_received := 0
    m_rx_error := .noError
    m_last_rx_timestamp := now
    m_state := (if st.m_state = .receiving then CommState.idle else st.m_state) }

/-- The byte-consuming `while` loop of `CommHandler::process_data`.
Each iteration consumes one byte, two bytes (`WaitForLength` when both
length bytes are available) or a block (`WaitForData`), exactly as the
C code advances `i`; the loop exits when a request has been received, on
the latched error state, or when the input is exhausted.  The `switch` on
`m_rx_state` is rendered as an if-chain over the enumeration (the `error`
case is already handled by the loop guard, and `WaitForProcess` consumes
no input). -/
def rx_loop (now : Nat) (st : CommRx) (bytes : List Nat) : CommRx :=
  match bytes with
  | [] => st
  | b :: rest =>
    if st.m_request_received = true ∨ st.m_rx_state = .error then st
    else if st.m_rx_state = .waitForCommand then
      rx_loop now
        { st with
          req := { st.req with command_id := b &&& 0x7F }
          m_rx_state := .waitForSubfunction } rest
    else if st.m_rx_state = .waitForSubfunction then
      rx_loop now
        { st with
          req := { st.req with subfunction_id := b }
          m_rx_state := .waitForLength } rest
    else if st.m_rx_state = .waitForLength then
      if st.m_length_bytes_received = 0 then
        match rest with
        | b2 :: rest2 =>
          let dl := b <<< 8 ||| b2
          rx_loop now
            { st with
              req := { st.req with data_length := dl }
              m_length_bytes_received := 2
              m_rx_state := (if dl = 0 then RxFSMState.waitForCRC else RxFSMState.waitForData) }
            rest2
        | [] =>
          rx_loop now
            { st with
              req := { st.req with data_length := b <<< 8 }
              m_length_bytes_received := 1 } []
      else
        let dl := st.req.data_length ||| b
        rx_loop now
          { st with
            req := { st.req with data_length := dl }
            m_length_bytes_received := 2
            m_rx_state := (if dl = 0 then RxFSMState.waitForCRC else RxFSMState.waitForData) }
          rest
    else if st.m_rx_state = .waitForData then
      if st.req.data_length > SCRUTINY_BUFFER_SIZE then
        { st with
          m_rx_error := .overflow
          m_rx_state := .error }
      else
        let available := (b :: rest).length
        let missing := st.req.data_length - st.m_data_bytes_received
        let k := if available ≥ missing then missing else available
        rx_loop now
          { st with
            buffer := mem_write st.buffer st.m_data_bytes_received ((b :: rest).take k)
            m_data_bytes_received := st.m_data_bytes_received + k
            m_rx_state := (if st.m_data_bytes_received + k ≥ st.req.data_length
              then RxFSMState.waitForCRC else RxFSMState.waitForData) }
          ((b :: rest).drop k)
    else if st.m_rx_state = .waitForCRC then
      if st.m_crc_bytes_received = 0 then
        rx_loop now
          { st with
            req := { st.req with crc := b <<< 24 }
            m_crc_bytes_received := 1 } rest
      else if st.m_crc_bytes_received = 1 then
        rx_loop now
          { st with
            req := { st.req with crc := st.req.crc ||| b <<< 16 }
            m_crc_bytes_received := 2 } rest
      else if st.m_crc_bytes_received = 2 then
        rx_loop now
          { st with
            req := { st.req with crc := st.req.crc ||| b <<< 8 }
            m_crc_bytes_received := 3 } rest
      else
        -- fourth CRC byte: assemble, set m_state = Idle, then CRC / enable gating
        let st1 :=
          { st with
            req := { st.req with crc := st.req.crc ||| b }
            m_state := CommState.idle }
        let st2 :=
          if check_crc st1 then
            if st1.m_enabled || check_must_enable st1 then
              { st1 with
                m_enabled := true
                req := { st1.req with valid := true }
                m_rx_state := .waitForProcess
                m_request_received := true }
            else reset_rx now st1
          else reset_rx now st1
        -- `m_crc_bytes_received++` runs after the branch, also after reset_rx
        rx_loop now { st2 with m_crc_bytes_received := st2.m_crc_bytes_received + 1 } rest
    else st
termination_by 2 * bytes.length + (if st.m_rx_state = .waitForData then 1 else 0)
decreasing_by
  all_goals simp only [List.length_drop, List.length_cons]
  all_goals split_ifs <;> first | omega | simp_all

/-- `CommHandler::process_data`: input is discarded while transmitting;
a too-long silence mid-frame resets the receiver; non-empty input stamps
`m_last_rx_timestamp` and moves Idle to Receiving; then the byte loop
runs.  `now` is the timebase's current timestamp. -/
def process_data (now : Nat) (st : CommRx) (data : List Nat) : CommRx :=
  if st.m_state = .transmitting then st
  else
    let st1 :=
      if st.m_rx_state ≠ .waitForCommand ∧ data ≠ [] then
        if is_elapsed now st.m_last_rx_timestamp SCRUTINY_COMM_TIMEOUT_US then
          { reset_rx now st with m_state := .idle }
        else st
      else st
    let st2 :=
      if data ≠ [] then
        { st1 with m_last_rx_timestamp := now
                   m_state := (if st1.m_state = .idle then CommState.receiving else st1.m_state) }
      else st1
    rx_loop now st2 data

/-- A CommHandler that is idle and ready to receive: the state right after
`init` (`buf0 = fun _ => 0`, `crc0 = 0`) and equally after any completed
request/response cycle (`wait_next_request` calls `reset_rx`, which leaves
the buffer and the stale CRC field arbitrary). -/
def idle_state (enabled : Bool) (buf0 : Nat → Nat) (crc0 t0 : Nat) : CommRx :=
  { m_state := .idle
    m_rx_state := .waitForCommand
    req := ⟨0, 0, 0, crc0, false⟩
    buffer := buf0
    m_request_received := false
    m_crc_bytes_received := 0
    m_length_bytes_received := 0
    m_data_bytes_received := 0
    m_last_rx_timestamp := t0
    m_rx_error := .noError
    m_enabled := enabled }

/-- Whether `CommHandler::send_response` accepts a response (returns
`true`): it refuses while disabled, while not idle, and on oversized
data. -/
def send_response_accepts (st : CommRx) (r : Response) : Bool :=
  if st.m_enabled = false then false
  else if st.m_state ≠ .idle then false
  else if r.data_length > SCRUTINY_BUFFER_SIZE then false
  else true

/-- The five header bytes written on the wire for a response
(`send_response` sets `command_id | 0x80` before computing the CRC). -/
def response_wire_header (r : Response) : List Nat :=
  [r.command_id ||| 0x80, r.subfunction_id, r.response_code,
   (r.data_length >>> 8) &&& 0xFF, r.data_length &&& 0xFF]

/-- The full byte sequence produced by `send_response` + `pop_data`:
header, payload, then CRC-32 of header and payload, big-endian
(`CommHandler::add_crc` and the `pop_data` serialization order). -/
def serialize_response (r : Response) : List Nat :=
  response_wire_header r ++ r.data ++
    encode_32_bits_big_endian (crc32 (response_wire_header r ++ r.data))

/-! ## Block-level view of the memory-control loops

`read_mem_loop` / `write_mem_loop` walk the raw payload exactly as the C
parsers do.  On a layout-valid payload they are equivalent to the
following structural loops over the parsed block lists; the equivalence
is proved below and the policy/ordering theorems are stated against
either view. -/

/-- `read_mem_loop` expressed over the parsed `(address, length)` list. -/
def read_loop_blocks (addrSize tx_limit : Nat) (forb : List AddressRange) (mem : Nat → Nat) :
    List (Nat × Nat) → List Nat → Nat → List Nat → MemControlResult
  | [], resp, _, perf => ⟨eResponseCode_OK, resp, mem, perf⟩
  | (addr, len) :: bs, resp, idx, perf =>
    if touches_forbidden_region forb addr len then ⟨eResponseCode_Forbidden, resp, mem, perf⟩
    else if resp.length + addrSize + 2 + len > tx_limit then
      ⟨eResponseCode_Overflow, resp, mem, perf⟩
    else read_loop_blocks addrSize tx_limit forb mem bs
      (resp ++ encode_address_big_endian addrSize addr ++ encode_16_bits_big_endian len ++
        mem_read mem addr len) (idx + 1) (perf ++ [idx])

/-- `write_mem_loop` expressed over the parsed `(address, length, data)` list. -/
def write_loop_blocks (addrSize tx_limit : Nat) (forb ro : List AddressRange) :
    (Nat → Nat) → List (Nat × Nat × List Nat) → List Nat → Nat → List Nat → MemControlResult
  | mem, [], resp, _, perf => ⟨eResponseCode_OK, resp, mem, perf⟩
  | mem, (addr, len, src) :: bs, resp, idx, perf =>
    if touches_forbidden_region forb addr len then ⟨eResponseCode_Forbidden, resp, mem, perf⟩
    else if touches_readonly_region ro addr len then ⟨eResponseCode_Forbidden, resp, mem, perf⟩
    else if resp.length + addrSize + 2 > tx_limit then ⟨eResponseCode_Overflow, resp, mem, perf⟩
    else write_loop_blocks addrSize tx_limit forb ro (mem_write mem addr src) bs
      (resp ++ encode_address_big_endian addrSize addr ++ encode_16_bits_big_endian len)
      (idx + 1) (perf ++ [idx])

theorem read_blocks_layout_valid_ne_nil (addrSize : Nat) (rem : List Nat)
    (h : read_blocks_layout_valid addrSize rem = true) : rem ≠ [] := by
  intro hn
  subst hn
  rw [read_blocks_layout_valid] at h
  simp at h

theorem write_blocks_layout_valid_ne_nil (addrSize : Nat) (rem : List Nat)
    (h : write_blocks_layout_valid addrSize rem = true) : rem ≠ [] := by
  intro hn
  subst hn
  rw [write_blocks_layout_valid] at h
  simp [block_len_field] at h

theorem mem_read_length (mem : Nat → Nat) (addr len : Nat) :
    (mem_read mem addr len).length = len := by
  simp [mem_read]

theorem encode_address_length (addrSize v : Nat) :
    (encode_address_big_endian addrSize v).length = addrSize := by
  simp [encode_address_big_endian]

theorem encode_16_length (v : Nat) : (encode_16_bits_big_endian v).length = 2 := by
  simp [encode_16_bits_big_endian]

/-- On a layout-valid payload, the raw read loop is the block-level loop. -/
theorem read_mem_loop_eq_blocks (addrSize tx_limit : Nat) (forb : List AddressRange)
    (mem : Nat → Nat) (rem resp : List Nat) (idx : Nat) (perf : List Nat)
    (h : read_blocks_layout_valid addrSize rem = true) :
    read_mem_loop addrSize tx_limit forb mem rem resp idx perf =
      read_loop_blocks addrSize tx_limit forb mem (read_blocks addrSize rem) resp idx perf := by
  rw [read_blocks_layout_valid] at h
  by_cases h1 : rem.length < addrSize + 2
  · simp [h1] at h
  · have hne : rem ≠ [] := by
      intro hnil; subst hnil; simp at h1
    rw [read_mem_loop, read_blocks]
    simp only [h1, if_false, List.isEmpty_iff, if_neg hne]
    rw [read_loop_blocks]
    by_cases h2 : touches_forbidden_region forb (decode_address_big_endian addrSize rem)
        (block_len_field addrSize rem)
    · simp [h2]
    · simp only [h2, if_false]
      by_cases h3 : resp.length + addrSize + 2 + block_len_field addrSize rem > tx_limit
      · simp [h3]
      · simp only [h3, if_false, if_neg (by omega : ¬ resp.length + addrSize + 2 +
          block_len_field addrSize rem > tx_limit)]
        by_cases h4 : rem.length = addrSize + 2
        · -- last block: the remainder is empty on both sides
          have hdrop : rem.drop (addrSize + 2) = [] := by
            apply List.eq_nil_of_length_eq_zero
            simp [List.length_drop, h4]
          rw [hdrop, read_mem_loop, read_blocks]
          simp [read_loop_blocks]
        · rw [if_neg h1, if_neg h4] at h
          exact read_mem_loop_eq_blocks addrSize tx_limit forb mem _ _ _ _ h
termination_by rem.length
decreasing_by simp only [List.length_drop]; omega

/-- On a layout-valid payload, the raw write loop is the block-level loop. -/
theorem write_mem_loop_eq_blocks (addrSize tx_limit : Nat) (forb ro : List AddressRange)
    (mem : Nat → Nat) (rem resp : List Nat) (idx : Nat) (perf : List Nat)
    (h : write_blocks_layout_valid addrSize rem = true) :
    write_mem_loop addrSize tx_limit forb ro mem rem resp idx perf =
      write_loop_blocks addrSize tx_limit forb ro mem (write_blocks addrSize rem)
        resp idx perf := by
  rw [write_blocks_layout_valid] at h
  by_cases h1 : rem.length < addrSize + 2
  · simp [h1] at h
  · have hne : rem ≠ [] := by
      intro hnil; subst hnil; simp at h1
    have h1' : ¬ (rem.drop (addrSize + 2)).length < block_len_field addrSize rem := by
      by_contra hc
      rw [if_neg h1] at h
      simp only [hc, if_true] at h
      exact absurd h (by simp)
    rw [write_mem_loop, write_blocks]
    simp only [h1, if_false, List.isEmpty_iff, if_neg hne, h1', if_neg h1']
    rw [write_loop_blocks]
    by_cases h2 : touches_forbidden_region forb (decode_address_big_endian addrSize rem)
        (block_len_field addrSize rem)
    · simp [h2]
    · simp only [h2, if_false]
      by_cases h2' : touches_readonly_region ro (decode_address_big_endian addrSize rem)
          (block_len_field addrSize rem)
      · simp [h2']
      · simp only [h2', if_false]
        by_cases h3 : resp.length + addrSize + 2 > tx_limit
        · simp [h3]
        · simp only [h3, if_false]
          by_cases h4 : (rem.drop (addrSize + 2)).length = block_len_field addrSize rem
          · -- last block: the remainder after the data bytes is empty
            have hdrop : (rem.drop (addrSize + 2)).drop (block_len_field addrSize rem) = [] := by
              apply List.eq_nil_of_length_eq_zero
              simp only [List.length_drop] at h4 ⊢
              omega
            rw [hdrop, write_mem_loop, write_blocks]
            simp [write_loop_blocks]
          · rw [if_neg h1] at h
            simp only [if_neg h1', if_neg h4] at h
            exact write_mem_loop_eq_blocks addrSize tx_limit forb ro _ _ _ _ _ h
termination_by rem.length
decreasing_by simp only [List.length_drop]; omega

/-! ## Per-block check codes and loop characterizations -/

/-- The code of the first failing per-block check of the Read loop for a
block `(addr, len)` arriving with `resp_len` response bytes already
encoded (`OK` when every check passes). -/
def read_block_check (addrSize tx_limit : Nat) (forb : List AddressRange)
    (resp_len : Nat) (blk : Nat × Nat) : Nat :=
  if touches_forbidden_region forb blk.1 blk.2 then eResponseCode_Forbidden
  else if resp_len + addrSize + 2 + blk.2 > tx_limit then eResponseCode_Overflow
  else eResponseCode_OK

/-- The code of the first failing per-block check of the Write loop. -/
def write_block_check (addrSize tx_limit : Nat) (forb ro : List AddressRange)
    (resp_len : Nat) (blk : Nat × Nat × List Nat) : Nat :=
  if touches_forbidden_region forb blk.1 blk.2.1 then eResponseCode_Forbidden
  else if touches_readonly_region ro blk.1 blk.2.1 then eResponseCode_Forbidden
  else if resp_len + addrSize + 2 > tx_limit then eResponseCode_Overflow
  else eResponseCode_OK

/-- Response bytes contributed by a list of read blocks
(the codec's `m_required_tx_buffer_size` accounting). -/
def read_blocks_resp_len (addrSize : Nat) (bs : List (Nat × Nat)) : Nat :=
  (bs.map (fun b => addrSize + 2 + b.2)).sum

/-- In-order application of the `memcpy`s of a list of write blocks. -/
def apply_writes (mem : Nat → Nat) (bs : List (Nat × Nat × List Nat)) : Nat → Nat :=
  bs.foldl (fun m b => mem_write m b.1 b.2.2) mem

/-- If every block passes the forbidden check and the total encoded
response exceeds the ceiling, the Read loop answers `Overflow`. -/
theorem read_loop_blocks_overflow (addrSize tx_limit : Nat) (forb : List AddressRange)
    (mem : Nat → Nat) (bs : List (Nat × Nat)) (resp : List Nat) (idx : Nat) (perf : List Nat)
    (hresp : resp.length ≤ tx_limit)
    (hforb : ∀ b ∈ bs, touches_forbidden_region forb b.1 b.2 = false)
    (hover : resp.length + read_blocks_resp_len addrSize bs > tx_limit) :
    (read_loop_blocks addrSize tx_limit forb mem bs resp idx perf).code =
      eResponseCode_Overflow := by
  induction bs generalizing resp idx perf with
  | nil => simp [read_blocks_resp_len] at hover; omega
  | cons b bs ih =>
    obtain ⟨addr, len⟩ := b
    rw [read_loop_blocks]
    rw [hforb (addr, len) (by simp)]
    simp only [Bool.false_eq_true, if_false]
    by_cases h3 : resp.length + addrSize + 2 + len > tx_limit
    · simp [h3]
    · simp only [h3, if_false]
      apply ih
      · simp [mem_read_length, encode_address_length, encode_16_length]
        omega
      · intro b hb; exact hforb b (by simp [hb])
      · simp only [List.length_append, mem_read_length, encode_address_length,
          encode_16_length, read_blocks_resp_len, List.map_cons, List.sum_cons] at hover ⊢
        omega

/-- First-failure characterization of the Read loop: if the blocks before
`k` all pass their checks and block `k` fails, the loop stops at block `k`
with that block's failure code, having performed exactly the reads of the
blocks before `k`. -/
theorem read_loop_blocks_first_fail (addrSize tx_limit : Nat) (forb : List AddressRange)
    (mem : Nat → Nat) (bs : List (Nat × Nat)) (resp : List Nat) (idx : Nat) (perf : List Nat)
    (k : Nat) (hk : k < bs.length)
    (hok : ∀ j, j < k → read_block_check addrSize tx_limit forb
      (resp.length + read_blocks_resp_len addrSize (bs.take j)) (bs.getD j (0, 0)) =
        eResponseCode_OK)
    (hfail : read_block_check addrSize tx_limit forb
      (resp.length + read_blocks_resp_len addrSize (bs.take k)) (bs.getD k (0, 0)) ≠
        eResponseCode_OK) :
    (read_loop_blocks addrSize tx_limit forb mem bs resp idx perf).code =
      read_block_check addrSize tx_limit forb
        (resp.length + read_blocks_resp_len addrSize (bs.take k)) (bs.getD k (0, 0)) ∧
    (read_loop_blocks addrSize tx_limit forb mem bs resp idx perf).performed =
      perf ++ (List.range k).map (· + idx) := by
  induction bs generalizing resp idx perf k with
  | nil => simp at hk
  | cons b bs ih =>
    obtain ⟨addr, len⟩ := b
    match k with
    | 0 =>
      simp only [List.getD_cons_zero, List.take_zero, read_blocks_resp_len, List.map_nil,
        List.sum_nil, Nat.add_zero] at hfail ⊢
      rw [read_loop_blocks]
      rw [read_block_check] at hfail ⊢
      by_cases h2 : touches_forbidden_region forb addr len
      · simp [h2]
      · simp only [h2, Bool.false_eq_true, if_false] at hfail ⊢
        by_cases h3 : resp.length + addrSize + 2 + len > tx_limit
        · simp [h3]
        · simp only [h3, if_false] at hfail
          simp [eResponseCode_OK] at hfail
    | k + 1 =>
      have h0 := hok 0 (by omega)
      simp only [List.getD_cons_zero, List.take_zero, read_blocks_resp_len, List.map_nil,
        List.sum_nil, Nat.add_zero, read_block_check] at h0
      rw [read_loop_blocks]
      by_cases h2 : touches_forbidden_region forb addr len
      · simp [h2, eResponseCode_Forbidden, eResponseCode_OK] at h0
      · simp only [h2, Bool.false_eq_true, if_false] at h0 ⊢
        by_cases h3 : resp.length + addrSize + 2 + len > tx_limit
        · simp [h3, eResponseCode_Overflow, eResponseCode_OK] at h0
        · simp only [h3, if_false]
          have hlen : (resp ++ encode_address_big_endian addrSize addr ++
              encode_16_bits_big_endian len ++ mem_read mem addr len).length =
              resp.length + (addrSize + 2 + len) := by
            simp [mem_read_length, encode_address_length, encode_16_length]
            omega
          have hrl : ∀ j, (resp ++ encode_address_big_endian addrSize addr ++
              encode_16_bits_big_endian len ++ mem_read mem addr len).length +
              read_blocks_resp_len addrSize (bs.take j) =
              resp.length + read_blocks_resp_len addrSize (((addr, len) :: bs).take (j + 1)) := by
            intro j
            rw [hlen]
            simp [read_blocks_resp_len, List.take_cons]
            omega
          obtain ⟨hcode, hperf⟩ := ih _ (idx + 1) (perf ++ [idx]) k (by simpa using hk)
            (fun j hj => by rw [hrl j]; exact hok (j + 1) (by omega))
            (by rw [hrl k]; simpa using hfail)
          constructor
          · rw [hcode, hrl k]
            simp
          · rw [hperf, List.range_succ_eq_map]
            simp [List.map_map, Function.comp, Nat.add_assoc, Nat.add_comm 1 idx]

/-- First-failure characterization of the Write loop: blocks are written
strictly in order; when block `k` fails a check the loop stops with that
block's failure code, the writes of blocks `0..k-1` are already in memory
and stay there, and exactly those blocks were performed. -/
theorem write_loop_blocks_first_fail (addrSize tx_limit : Nat) (forb ro : List AddressRange)
    (mem : Nat → Nat) (bs : List (Nat × Nat × List Nat)) (resp : List Nat) (idx : Nat)
    (perf : List Nat) (k : Nat) (hk : k < bs.length)
    (hok : ∀ j, j < k → write_block_check addrSize tx_limit forb ro
      (resp.length + j * (addrSize + 2)) (bs.getD j (0, 0, [])) = eResponseCode_OK)
    (hfail : write_block_check addrSize tx_limit forb ro
      (resp.length + k * (addrSize + 2)) (bs.getD k (0, 0, [])) ≠ eResponseCode_OK) :
    (write_loop_blocks addrSize tx_limit forb ro mem bs resp idx perf).code =
      write_block_check addrSize tx_limit forb ro
        (resp.length + k * (addrSize + 2)) (bs.getD k (0, 0, [])) ∧
    (write_loop_blocks addrSize tx_limit forb ro mem bs resp idx perf).performed =
      perf ++ (List.range k).map (· + idx) ∧
    (write_loop_blocks addrSize tx_limit forb ro mem bs resp idx perf).mem =
      apply_writes mem (bs.take k) := by
  induction bs generalizing mem resp idx perf k with
  | nil => simp at hk
  | cons b bs ih =>
    obtain ⟨addr, len, src⟩ := b
    match k with
    | 0 =>
      simp only [List.getD_cons_zero, Nat.zero_mul, Nat.add_zero] at hfail ⊢
      rw [write_loop_blocks]
      rw [write_block_check] at hfail ⊢
      by_cases h2 : touches_forbidden_region forb addr len
      · simp [h2, apply_writes]
      · simp only [h2, Bool.false_eq_true, if_false] at hfail ⊢
        by_cases h2' : touches_readonly_region ro addr len
        · simp [h2', apply_writes]
        · simp only [h2', Bool.false_eq_true, if_false] at hfail ⊢
          by_cases h3 : resp.length + addrSize + 2 > tx_limit
          · simp [h3, apply_writes]
          · simp only [h3, if_false] at hfail
            simp [eResponseCode_OK] at hfail
    | k + 1 =>
      have h0 := hok 0 (by omega)
      simp only [List.getD_cons_zero, Nat.zero_mul, Nat.add_zero, write_block_check] at h0
      rw [write_loop_blocks]
      by_cases h2 : touches_forbidden_region forb addr len
      · simp [h2, eResponseCode_Forbidden, eResponseCode_OK] at h0
      · simp only [h2, Bool.false_eq_true, if_false] at h0 ⊢
        by_cases h2' : touches_readonly_region ro addr len
        · simp [h2', eResponseCode_Forbidden, eResponseCode_OK] at h0
        · simp only [h2', Bool.false_eq_true, if_false] at h0 ⊢
          by_cases h3 : resp.length + addrSize + 2 > tx_limit
          · simp [h3, eResponseCode_Overflow, eResponseCode_OK] at h0
          · simp only [h3, if_false]
            have hrl : ∀ j : Nat, (resp ++ encode_address_big_endian addrSize addr ++
                encode_16_bits_big_endian len).length + j * (addrSize + 2) =
                resp.length + (j + 1) * (addrSize + 2) := by
              intro j
              simp only [List.length_append, encode_address_length, encode_16_length]
              ring
            obtain ⟨hcode, hperf, hmem⟩ := ih (mem_write mem addr src) _ (idx + 1)
              (perf ++ [idx]) k (by simpa using hk)
              (fun j hj => by rw [hrl j]; exact hok (j + 1) (by omega))
              (by rw [hrl k]; simpa using hfail)
            refine ⟨?_, ?_, ?_⟩
            · rw [hcode, hrl k]
              simp
            · rw [hperf, List.range_succ_eq_map]
              simp [List.map_map, Function.comp, Nat.add_assoc, Nat.add_comm 1 idx]
            · rw [hmem]
              simp [apply_writes, List.take_cons]

/-- The performed-block list of the Read loop extends `perf` with a
contiguous run `idx, idx+1, ...`, one index per block that passed the
forbidden check (so a block that touches a forbidden range is never
among the performed reads). -/
theorem read_loop_blocks_performed_spec (addrSize tx_limit : Nat) (forb : List AddressRange)
    (mem : Nat → Nat) (bs : List (Nat × Nat)) (resp : List Nat) (idx : Nat) (perf : List Nat) :
    ∃ m, m ≤ bs.length ∧
      (read_loop_blocks addrSize tx_limit forb mem bs resp idx perf).performed =
        perf ++ (List.range m).map (· + idx) ∧
      ∀ j, j < m → touches_forbidden_region forb (bs.getD j (0, 0)).1 (bs.getD j (0, 0)).2 =
        false := by
  induction bs generalizing resp idx perf with
  | nil =>
    refine ⟨0, by simp, by simp [read_loop_blocks], by omega⟩
  | cons b bs ih =>
    obtain ⟨addr, len⟩ := b
    rw [read_loop_blocks]
    by_cases h2 : touches_forbidden_region forb addr len
    · exact ⟨0, by simp, by simp [h2], by omega⟩
    · simp only [h2, Bool.false_eq_true, if_false]
      by_cases h3 : resp.length + addrSize + 2 + len > tx_limit
      · exact ⟨0, by simp, by simp [h3], by omega⟩
      · simp only [h3, if_false]
        obtain ⟨m, hm, hperf, hpass⟩ := ih (resp ++ encode_address_big_endian addrSize addr ++
          encode_16_bits_big_endian len ++ mem_read mem addr len) (idx + 1) (perf ++ [idx])
        refine ⟨m + 1, by simpa using hm, ?_, ?_⟩
        · rw [hperf, List.range_succ_eq_map]
          simp [List.map_map, Function.comp, Nat.add_assoc, Nat.add_comm 1 idx]
        · intro j hj
          match j with
          | 0 => simpa using h2
          | j + 1 => simpa using hpass j (by omega)

/-- The performed-block list of the Write loop: one contiguous index per
block that passed the forbidden and readonly checks, so a block touching
a forbidden or readonly range is never written. -/
theorem write_loop_blocks_performed_spec (addrSize tx_limit : Nat) (forb ro : List AddressRange)
    (mem : Nat → Nat) (bs : List (Nat × Nat × List Nat)) (resp : List Nat) (idx : Nat)
    (perf : List Nat) :
    ∃ m, m ≤ bs.length ∧
      (write_loop_blocks addrSize tx_limit forb ro mem bs resp idx perf).performed =
        perf ++ (List.range m).map (· + idx) ∧
      (write_loop_blocks addrSize tx_limit forb ro mem bs resp idx perf).mem =
        apply_writes mem (bs.take m) ∧
      ∀ j, j < m →
        touches_forbidden_region forb (bs.getD j (0, 0, [])).1 (bs.getD j (0, 0, [])).2.1 =
          false ∧
        touches_readonly_region ro (bs.getD j (0, 0, [])).1 (bs.getD j (0, 0, [])).2.1 =
          false := by
  induction bs generalizing mem resp idx perf with
  | nil =>
    refine ⟨0, by simp, by simp [write_loop_blocks], by simp [write_loop_blocks, apply_writes],
      by omega⟩
  | cons b bs ih =>
    obtain ⟨addr, len, src⟩ := b
    rw [write_loop_blocks]
    by_cases h2 : touches_forbidden_region forb addr len
    · exact ⟨0, by simp, by simp [h2], by simp [h2, apply_writes], by omega⟩
    · simp only [h2, Bool.false_eq_true, if_false]
      by_cases h2' : touches_readonly_region ro addr len
      · exact ⟨0, by simp, by simp [h2'], by simp [h2', apply_writes], by omega⟩
      · simp only [h2', Bool.false_eq_true, if_false]
        by_cases h3 : resp.length + addrSize + 2 > tx_limit
        · exact ⟨0, by simp, by simp [h3], by simp [h3, apply_writes], by omega⟩
        · simp only [h3, if_false]
          obtain ⟨m, hm, hperf, hmem, hpass⟩ := ih (mem_write mem addr src)
            (resp ++ encode_address_big_endian addrSize addr ++ encode_16_bits_big_endian len)
            (idx + 1) (perf ++ [idx])
          refine ⟨m + 1, by simpa using hm, ?_, ?_, ?_⟩
          · rw [hperf, List.range_succ_eq_map]
            simp [List.map_map, Function.comp, Nat.add_assoc, Nat.add_comm 1 idx]
          · rw [hmem]
            simp [apply_writes, List.take_cons]
          · intro j hj
            match j with
            | 0 => exact ⟨by simpa using h2, by simpa using h2'⟩
            | j + 1 => simpa using hpass j (by omega)

/-! ## Layout lemmas for truncated write payloads -/

/-- A correctly encoded write-block record: `ADDR(addrSize) LEN(2) BYTES(LEN)`
with exactly `LEN` data bytes. -/
def write_block_wf (addrSize : Nat) (b : List Nat) : Prop :=
  addrSize + 2 ≤ b.length ∧ b.length = addrSize + 2 + block_len_field addrSize b

theorem block_len_field_append (addrSize : Nat) (b r : List Nat)
    (h : addrSize + 2 ≤ b.length) :
    block_len_field addrSize (b ++ r) = block_len_field addrSize b := by
  unfold block_len_field
  rw [List.getD_append _ _ _ _ (by omega), List.getD_append _ _ _ _ (by omega)]

/-- `WriteMemoryBlocksRequestParser::validate` consumes one well-formed
record and continues on the (non-empty) remainder. -/
theorem write_blocks_layout_valid_append (addrSize : Nat) (b r : List Nat)
    (hb : write_block_wf addrSize b) (hr : r ≠ []) :
    write_blocks_layout_valid addrSize (b ++ r) =
      write_blocks_layout_valid addrSize r := by
  obtain ⟨h1, h2⟩ := hb
  have hrlen : 0 < r.length := List.length_pos.mpr hr
  rw [write_blocks_layout_valid]
  have hnl : ¬ (b ++ r).length < addrSize + 2 := by
    rw [List.length_append]; omega
  rw [if_neg hnl]
  simp only [block_len_field_append _ _ _ h1,
    List.drop_append_of_le_length (by omega : addrSize + 2 ≤ b.length)]
  have hdl : (List.drop (addrSize + 2) b).length = block_len_field addrSize b := by
    simp only [List.length_drop]; omega
  have hc1 : ¬ (List.drop (addrSize + 2) b ++ r).length < block_len_field addrSize b := by
    rw [List.length_append]; omega
  have hc2 : ¬ (List.drop (addrSize + 2) b ++ r).length = block_len_field addrSize b := by
    rw [List.length_append]; omega
  rw [if_neg hc1, if_neg hc2,
    List.drop_append_of_le_length (by omega : block_len_field addrSize b ≤
      (List.drop (addrSize + 2) b).length)]
  have : List.drop (block_len_field addrSize b) (List.drop (addrSize + 2) b) = [] := by
    apply List.eq_nil_of_length_eq_zero
    simp only [List.length_drop]; omega
  rw [this, List.nil_append]

/-- A payload made of well-formed write records followed by a non-empty
remainder too short to hold a full record fails validation. -/
theorem write_layout_flatten_tail_invalid (addrSize : Nat) (blocks : List (List Nat))
    (tail : List Nat) (hwf : ∀ b ∈ blocks, write_block_wf addrSize b) (ht1 : tail ≠ [])
    (ht2 : tail.length < addrSize + 2 ∨
      (tail.drop (addrSize + 2)).length < block_len_field addrSize tail) :
    write_blocks_layout_valid addrSize (blocks.flatten ++ tail) = false := by
  induction blocks with
  | nil =>
    simp only [List.flatten_nil, List.nil_append]
    rw [write_blocks_layout_valid]
    rcases ht2 with h | h
    · simp [h]
    · have hn : ¬ tail.length < addrSize + 2 ∨ tail.length < addrSize + 2 := by omega
      rcases hn with hn | hn
      · rw [if_neg hn]
        simp only [List.length_drop] at h
        simp [List.length_drop, h]
      · simp [hn]
  | cons b bl ih =>
    rw [List.flatten_cons, List.append_assoc,
      write_blocks_layout_valid_append addrSize b _ (hwf b (by simp))
        (by simp [ht1])]
    exact ih (fun x hx => hwf x (by simp [hx]))

/-! ## Claim C5 -/

/-- C5: a MemoryControl Write whose payload truncates mid-block (a
trailing remainder too short to hold a full address+length+data record)
answers `InvalidRequest` and leaves memory untouched; a MemoryControl Read
whose encoded response would exceed the transmit size ceiling (and whose
blocks pass the forbidden check, which is tested first) answers
`Overflow`. -/
theorem C5_write_truncated_invalid_and_read_overflow :
    (∀ (addrSize tx_limit : Nat) (forb ro : List AddressRange) (mem : Nat → Nat)
      (blocks : List (List Nat)) (tail : List Nat),
      (∀ b ∈ blocks, write_block_wf addrSize b) → tail ≠ [] →
      (tail.length < addrSize + 2 ∨
        (tail.drop (addrSize + 2)).length < block_len_field addrSize tail) →
      (process_memory_control addrSize tx_limit forb ro mem eSubfnWrite
        (blocks.flatten ++ tail)).code = eResponseCode_InvalidRequest ∧
      (process_memory_control addrSize tx_limit forb ro mem eSubfnWrite
        (blocks.flatten ++ tail)).mem = mem) ∧
    (∀ (addrSize tx_limit : Nat) (forb ro : List AddressRange) (mem : Nat → Nat)
      (payload : List Nat),
      read_blocks_layout_valid addrSize payload = true →
      (∀ b ∈ read_blocks addrSize payload, touches_forbidden_region forb b.1 b.2 = false) →
      read_blocks_resp_len addrSize (read_blocks addrSize payload) > tx_limit →
      (process_memory_control addrSize tx_limit forb ro mem eSubfnRead payload).code =
        eResponseCode_Overflow) := by
  constructor
  · intro addrSize tx_limit forb ro mem blocks tail hwf ht1 ht2
    have hinv := write_layout_flatten_tail_invalid addrSize blocks tail hwf ht1 ht2
    rw [process_memory_control]
    simp only [eSubfnWrite, eSubfnRead]
    norm_num
    simp [hinv]
  · intro addrSize tx_limit forb ro mem payload hv hforb hover
    rw [process_memory_control]
    simp only [eSubfnRead, if_pos rfl, hv, if_true]
    rw [read_mem_loop_eq_blocks _ _ _ _ _ _ _ _ hv]
    exact read_loop_blocks_overflow _ _ _ _ _ _ _ _ (by simp) hforb (by simpa using hover)

/-! ## Claim C9 -/

/-- C9: in a multi-block MemoryControl Write, blocks are checked and
written strictly in request order; if block `k` is the first to fail a
policy or size check, its failure code is the response code, exactly the
blocks before `k` have been written, and those writes stay in memory —
there is no rollback. -/
theorem C9_write_first_failure_keeps_earlier_writes
    (addrSize tx_limit : Nat) (forb ro : List AddressRange) (mem : Nat → Nat)
    (payload : List Nat) (k : Nat)
    (hv : write_blocks_layout_valid addrSize payload = true)
    (hk : k < (write_blocks addrSize payload).length)
    (hok : ∀ j, j < k → write_block_check addrSize tx_limit forb ro (j * (addrSize + 2))
      ((write_blocks addrSize payload).getD j (0, 0, [])) = eResponseCode_OK)
    (hfail : write_block_check addrSize tx_limit forb ro (k * (addrSize + 2))
      ((write_blocks addrSize payload).getD k (0, 0, [])) ≠ eResponseCode_OK) :
    (process_memory_control addrSize tx_limit forb ro mem eSubfnWrite payload).code =
      write_block_check addrSize tx_limit forb ro (k * (addrSize + 2))
        ((write_blocks addrSize payload).getD k (0, 0, [])) ∧
    (process_memory_control addrSize tx_limit forb ro mem eSubfnWrite payload).performed =
      List.range k ∧
    (process_memory_control addrSize tx_limit forb ro mem eSubfnWrite payload).mem =
      apply_writes mem ((write_blocks addrSize payload).take k) := by
  rw [process_memory_control]
  simp only [eSubfnWrite, eSubfnRead]
  norm_num
  rw [if_pos hv]
  rw [write_mem_loop_eq_blocks _ _ _ _ _ _ _ _ _ hv]
  obtain ⟨hcode, hperf, hmem⟩ := write_loop_blocks_first_fail addrSize tx_limit forb ro mem
    (write_blocks addrSize payload) [] 0 [] k hk (by simpa using hok) (by simpa using hfail)
  refine ⟨by simpa using hcode, by simpa using hperf, hmem⟩

/-! ## Claim C1 -/

/-- C1 (amended): for MemoryControl requests, a decoded block with an
endpoint inside a configured forbidden range (ranges scanned in array
order up to the first `set=false` entry) is never read nor written; the
response code is `Forbidden` provided no earlier block in request order
already failed a check (an earlier failure returns its own code instead
and also stops the loop before the forbidden block).  Readonly ranges
yield `Forbidden` for Write blocks only; the Read path does not consult
them at all. -/
theorem C1_forbidden_blocks_never_touched :
    -- Read: when every block before k passes its checks and block k
    -- touches a forbidden range, the response is Forbidden
    (∀ (addrSize tx_limit : Nat) (forb ro : List AddressRange) (mem : Nat → Nat)
      (payload : List Nat) (k : Nat),
      read_blocks_layout_valid addrSize payload = true →
      k < (read_blocks addrSize payload).length →
      (∀ j, j < k → read_block_check addrSize tx_limit forb
        (read_blocks_resp_len addrSize ((read_blocks addrSize payload).take j))
        ((read_blocks addrSize payload).getD j (0, 0)) = eResponseCode_OK) →
      touches_forbidden_region forb ((read_blocks addrSize payload).getD k (0, 0)).1
        ((read_blocks addrSize payload).getD k (0, 0)).2 = true →
      (process_memory_control addrSize tx_limit forb ro mem eSubfnRead payload).code =
        eResponseCode_Forbidden) ∧
    -- Read: a block touching a forbidden range is never among the
    -- performed reads, whatever happens to the other blocks
    (∀ (addrSize tx_limit : Nat) (forb ro : List AddressRange) (mem : Nat → Nat)
      (payload : List Nat) (k : Nat),
      read_blocks_layout_valid addrSize payload = true →
      touches_forbidden_region forb ((read_blocks addrSize payload).getD k (0, 0)).1
        ((read_blocks addrSize payload).getD k (0, 0)).2 = true →
      k ∉ (process_memory_control addrSize tx_limit forb ro mem eSubfnRead payload).performed) ∧
    -- Read: readonly ranges are not consulted
    (∀ (addrSize tx_limit : Nat) (forb ro ro2 : List AddressRange) (mem : Nat → Nat)
      (payload : List Nat),
      process_memory_control addrSize tx_limit forb ro mem eSubfnRead payload =
        process_memory_control addrSize tx_limit forb ro2 mem eSubfnRead payload) ∧
    -- Write: when every block before k passes and block k touches a
    -- forbidden or readonly range, the response is Forbidden
    (∀ (addrSize tx_limit : Nat) (forb ro : List AddressRange) (mem : Nat → Nat)
      (payload : List Nat) (k : Nat),
      write_blocks_layout_valid addrSize payload = true →
      k < (write_blocks addrSize payload).length →
      (∀ j, j < k → write_block_check addrSize tx_limit forb ro (j * (addrSize + 2))
        ((write_blocks addrSize payload).getD j (0, 0, [])) = eResponseCode_OK) →
      (touches_forbidden_region forb ((write_blocks addrSize payload).getD k (0, 0, [])).1
        ((write_blocks addrSize payload).getD k (0, 0, [])).2.1 = true ∨
       touches_readonly_region ro ((write_blocks addrSize payload).getD k (0, 0, [])).1
        ((write_blocks addrSize payload).getD k (0, 0, [])).2.1 = true) →
      (process_memory_control addrSize tx_limit forb ro mem eSubfnWrite payload).code =
        eResponseCode_Forbidden) ∧
    -- Write: a block touching a forbidden or readonly range is never
    -- among the performed writes
    (∀ (addrSize tx_limit : Nat) (forb ro : List AddressRange) (mem : Nat → Nat)
      (payload : List Nat) (k : Nat),
      write_blocks_layout_valid addrSize payload = true →
      (touches_forbidden_region forb ((write_blocks addrSize payload).getD k (0, 0, [])).1
        ((write_blocks addrSize payload).getD k (0, 0, [])).2.1 = true ∨
       touches_readonly_region ro ((write_blocks addrSize payload).getD k (0, 0, [])).1
        ((write_blocks addrSize payload).getD k (0, 0, [])).2.1 = true) →
      k ∉ (process_memory_control addrSize tx_limit forb ro mem
        eSubfnWrite payload).performed) := by
  refine ⟨?_, ?_, ?_, ?_, ?_⟩
  · intro addrSize tx_limit forb ro mem payload k hv hk hok htouch
    rw [process_memory_control]
    simp only [eSubfnRead, if_pos rfl, hv, if_true]
    rw [read_mem_loop_eq_blocks _ _ _ _ _ _ _ _ hv]
    have hfail : read_block_check addrSize tx_limit forb
        (read_blocks_resp_len addrSize ((read_blocks addrSize payload).take k))
        ((read_blocks addrSize payload).getD k (0, 0)) = eResponseCode_Forbidden := by
      rw [read_block_check, if_pos htouch]
    obtain ⟨hcode, _⟩ := read_loop_blocks_first_fail addrSize tx_limit forb mem
      (read_blocks addrSize payload) [] 0 [] k hk (by simpa using hok)
      (by simp only [List.length_nil, Nat.zero_add]
          rw [hfail]
          simp [eResponseCode_Forbidden, eResponseCode_OK])
    rw [hcode]
    simpa using hfail
  · intro addrSize tx_limit forb ro mem payload k hv htouch
    rw [process_memory_control]
    simp only [eSubfnRead, if_pos rfl, hv, if_true]
    rw [read_mem_loop_eq_blocks _ _ _ _ _ _ _ _ hv]
    obtain ⟨m, hm, hperf, hpass⟩ := read_loop_blocks_performed_spec addrSize tx_limit forb mem
      (read_blocks addrSize payload) [] 0 []
    rw [hperf]
    intro hmem
    simp only [List.nil_append, List.mem_map, List.mem_range] at hmem
    obtain ⟨j, hj, hjk⟩ := hmem
    subst hjk
    have := hpass j hj
    simp only [Nat.add_zero] at *
    rw [htouch] at this
    exact absurd this (by simp)
  · intro addrSize tx_limit forb ro ro2 mem payload
    rw [process_memory_control, process_memory_control]
    simp [eSubfnRead]
  · intro addrSize tx_limit forb ro mem payload k hv hk hok htouch
    rw [process_memory_control]
    simp only [eSubfnWrite, eSubfnRead]
    norm_num
    rw [if_pos hv]
    rw [write_mem_loop_eq_blocks _ _ _ _ _ _ _ _ _ hv]
    have hfail : write_block_check addrSize tx_limit forb ro (k * (addrSize + 2))
        ((write_blocks addrSize payload).getD k (0, 0, [])) = eResponseCode_Forbidden := by
      rw [write_block_check]
      rcases htouch with h | h
      · rw [if_pos h]
      · by_cases h2 : touches_forbidden_region forb
            ((write_blocks addrSize payload).getD k (0, 0, [])).1
            ((write_blocks addrSize payload).getD k (0, 0, [])).2.1
        · rw [if_pos h2]
        · rw [if_neg h2, if_pos h]
    obtain ⟨hcode, _, _⟩ := write_loop_blocks_first_fail addrSize tx_limit forb ro mem
      (write_blocks addrSize payload) [] 0 [] k hk (by simpa using hok)
      (by simp only [List.length_nil, Nat.zero_add]
          rw [hfail]
          simp [eResponseCode_Forbidden, eResponseCode_OK])
    rw [hcode]
    simpa using hfail
  · intro addrSize tx_limit forb ro mem payload k hv htouch
    rw [process_memory_control]
    simp only [eSubfnWrite, eSubfnRead]
    norm_num
    rw [if_pos hv]
    rw [write_mem_loop_eq_blocks _ _ _ _ _ _ _ _ _ hv]
    obtain ⟨m, hm, hperf, _, hpass⟩ := write_loop_blocks_performed_spec addrSize tx_limit
      forb ro mem (write_blocks addrSize payload) [] 0 []
    rw [hperf]
    intro hmem
    simp only [List.nil_append, List.mem_map, List.mem_range] at hmem
    obtain ⟨j, hj, hjk⟩ := hmem
    subst hjk
    have := hpass j hj
    simp only [Nat.add_zero] at *
    rcases htouch with h | h
    · rw [this.1] at h
      exact absurd h (by simp)
    · rw [this.2] at h
      exact absurd h (by simp)

/-- C1 counterexample: a Read request whose first block overflows the
response ceiling and whose second block lies inside a configured
forbidden range answers `Overflow`, not `Forbidden`, although a decoded
block of the request has an endpoint inside a forbidden range. -/
theorem C1_counterexample_overflow_shadows_forbidden :
    read_blocks_layout_valid 4 [0, 0, 0, 16, 0, 251, 0, 0, 5, 220, 0, 1] = true ∧
    (read_blocks 4 [0, 0, 0, 16, 0, 251, 0, 0, 5, 220, 0, 1]).getD 1 (0, 0) = (1500, 1) ∧
    touches_forbidden_region [⟨1000, 2000, true⟩] 1500 1 = true ∧
    (process_memory_control 4 256 [⟨1000, 2000, true⟩] [] (fun _ => 0) eSubfnRead
      [0, 0, 0, 16, 0, 251, 0, 0, 5, 220, 0, 1]).code = eResponseCode_Overflow ∧
    eResponseCode_Overflow ≠ eResponseCode_Forbidden := by
  have hv : read_blocks_layout_valid 4 [0, 0, 0, 16, 0, 251, 0, 0, 5, 220, 0, 1] = true := by
    rw [read_blocks_layout_valid]
    norm_num
    rw [read_blocks_layout_valid]
    norm_num
  have hbs : read_blocks 4 [0, 0, 0, 16, 0, 251, 0, 0, 5, 220, 0, 1] =
      [(16, 251), (1500, 1)] := by
    rw [read_blocks]
    norm_num [block_len_field, decode_address_big_endian]
    rw [read_blocks]
    norm_num [block_len_field, decode_address_big_endian]
    rw [read_blocks]
    norm_num
    all_goals decide
  refine ⟨hv, by rw [hbs]; decide, by decide, ?_, by decide⟩
  rw [process_memory_control]
  simp only [eSubfnRead, if_pos rfl, hv, if_true]
  rw [read_mem_loop_eq_blocks _ _ _ _ _ _ _ _ hv, hbs]
  decide

/-- C1 witness: the amended statement applied to a single-block Read
inside the forbidden range `[1000, 2000]`. -/
theorem C1_witness_single_forbidden_read :
    read_blocks_layout_valid 4 [0, 0, 5, 220, 0, 1] = true ∧
    (process_memory_control 4 256 [⟨1000, 2000, true⟩] [] (fun _ => 0) eSubfnRead
      [0, 0, 5, 220, 0, 1]).code = eResponseCode_Forbidden := by
  have hv : read_blocks_layout_valid 4 [0, 0, 5, 220, 0, 1] = true := by
    rw [read_blocks_layout_valid]
    norm_num
  have hbs : read_blocks 4 [0, 0, 5, 220, 0, 1] = [(1500, 1)] := by
    rw [read_blocks]
    norm_num [block_len_field, decode_address_big_endian]
    rw [read_blocks]
    norm_num
    all_goals decide
  refine ⟨hv, ?_⟩
  exact C1_forbidden_blocks_never_touched.1 4 256 [⟨1000, 2000, true⟩] [] (fun _ => 0)
    [0, 0, 5, 220, 0, 1] 0 hv (by rw [hbs]; decide)
    (fun j hj => absurd hj (Nat.not_lt_zero j)) (by rw [hbs]; decide)

/-! ## Claim C4 -/

/-- C4: dispatching a valid request with an undefined command id
(`0x06`), or a GetInfo request with an unknown subfunction (`0x20`),
answers wire code `FailureToProceed` (5), not `UnsupportedFeature` (2):
the `UnsupportedFeature` stores in the `default` switch branches are dead
because `process_request` overwrites `response_code` with the dispatch
code, which still holds its initial `FailureToProceed`. -/
theorem C4_unknown_command_answers_failure_to_proceed :
    ((process_request ⟨4, 256, 256, 0, 5000000, 50000, List.replicate 16 0, [], []⟩ 0 1
        ⟨⟨false, 0, 0⟩, false, fun _ => 0⟩ ⟨0x06, 0, [], true⟩).1.response_code =
      eResponseCode_FailureToProceed) ∧
    ((process_request ⟨4, 256, 256, 0, 5000000, 50000, List.replicate 16 0, [], []⟩ 0 1
        ⟨⟨false, 0, 0⟩, false, fun _ => 0⟩ ⟨eCmdGetInfo, 0x20, [], true⟩).1.response_code =
      eResponseCode_FailureToProceed) ∧
    eResponseCode_FailureToProceed ≠ eResponseCode_UnsupportedFeature := by
  refine ⟨by decide, by decide, by decide⟩

/-! ## Claim C6 -/

/-- C6: a Heartbeat request whose session-id field differs from the
current session id answers `InvalidRequest`, and the session — in
particular `last_heartbeat_timestamp` — is left untouched
(`CommHandler::heartbeat` is never called on that path). -/
theorem C6_wrong_session_heartbeat_not_refreshed (P : BuildParams)
    (now new_session_id : Nat) (st : MainState) (req : Request)
    (hcmd : req.command_id = eCmdCommControl) (hsub : req.subfunction_id = eSubfnHeartbeat)
    (hvalid : req.valid = true) (hlen : req.data.length = 6)
    (hsid : decode_32_bits_big_endian (req.data.getD 0 0) (req.data.getD 1 0)
      (req.data.getD 2 0) (req.data.getD 3 0) ≠ st.session.session_id) :
    (process_request P now new_session_id st req).1.response_code =
      eResponseCode_InvalidRequest ∧
    (process_request P now new_session_id st req).2.session.last_heartbeat_timestamp =
      st.session.last_heartbeat_timestamp ∧
    (process_request P now new_session_id st req).2.session = st.session := by
  rw [process_request, process_comm_control]
  simp only [List.getD_eq_getElem?_getD] at hsid
  simp only [hvalid, hcmd, hsub, hlen, eCmdCommControl, eCmdGetInfo, eSubfnDiscover,
    eSubfnHeartbeat, eResponseCode_InvalidRequest, eResponseCode_OK]
  norm_num
  simp [hsid]

/-- C6 witness: session id 5, heartbeat carrying session id
`0x09090909`. -/
theorem C6_witness :
    decode_32_bits_big_endian 9 9 9 9 ≠ 5 ∧
    (process_request ⟨4, 256, 256, 0, 5000000, 50000, List.replicate 16 0, [], []⟩ 0 1
      ⟨⟨true, 5, 77⟩, false, fun _ => 0⟩
      ⟨eCmdCommControl, eSubfnHeartbeat, [9, 9, 9, 9, 0, 1], true⟩).1.response_code =
      eResponseCode_InvalidRequest ∧
    (process_request ⟨4, 256, 256, 0, 5000000, 50000, List.replicate 16 0, [], []⟩ 0 1
      ⟨⟨true, 5, 77⟩, false, fun _ => 0⟩
      ⟨eCmdCommControl, eSubfnHeartbeat, [9, 9, 9, 9, 0, 1], true⟩).2.session.last_heartbeat_timestamp = 77 := by
  refine ⟨by decide, ?_, ?_⟩
  · exact (C6_wrong_session_heartbeat_not_refreshed _ 0 1 _ _ rfl rfl rfl (by decide)
      (by decide)).1
  · have h := (C6_wrong_session_heartbeat_not_refreshed
      ⟨4, 256, 256, 0, 5000000, 50000, List.replicate 16 0, [], []⟩ 0 1
      ⟨⟨true, 5, 77⟩, false, fun _ => 0⟩
      ⟨eCmdCommControl, eSubfnHeartbeat, [9, 9, 9, 9, 0, 1], true⟩ rfl rfl rfl (by decide)
      (by decide)).2.1
    simpa using h

/-! ## Claim C7 -/

/-- C7 counterexample: with `BUF_SIZE = 256` and
`max_bitrate = 0x12345678` the GetParams response payload is 16 bytes,
not 14, and the length field on the wire is `0x0010`, so the frame
claimed in the spec (`... 00 0E ...`) is not what the agent sends. -/
theorem C7_counterexample_get_params_length :
    ((process_request ⟨4, 256, 256, 0x12345678, 5000000, 50000, List.replicate 16 0, [], []⟩
        0 1 ⟨⟨false, 0, 0⟩, false, fun _ => 0⟩
        ⟨eCmdCommControl, eSubfnGetParams, [], true⟩).1.data_length = 16) ∧
    ((process_request ⟨4, 256, 256, 0x12345678, 5000000, 50000, List.replicate 16 0, [], []⟩
        0 1 ⟨⟨false, 0, 0⟩, false, fun _ => 0⟩
        ⟨eCmdCommControl, eSubfnGetParams, [], true⟩).1.data_length ≠ 14) ∧
    ((serialize_response (process_request
        ⟨4, 256, 256, 0x12345678, 5000000, 50000, List.replicate 16 0, [], []⟩
        0 1 ⟨⟨false, 0, 0⟩, false, fun _ => 0⟩
        ⟨eCmdCommControl, eSubfnGetParams, [], true⟩).1).take 21 =
      [0x82, 0x03, 0x00, 0x00, 0x10, 0x01, 0x00, 0x01, 0x00, 0x12, 0x34, 0x56, 0x78,
       0x00, 0x4C, 0x4B, 0x40, 0x00, 0x00, 0xC3, 0x50]) ∧
    ((serialize_response (process_request
        ⟨4, 256, 256, 0x12345678, 5000000, 50000, List.replicate 16 0, [], []⟩
        0 1 ⟨⟨false, 0, 0⟩, false, fun _ => 0⟩
        ⟨eCmdCommControl, eSubfnGetParams, [], true⟩).1).getD 4 0 ≠ 0x0E) := by
  refine ⟨by decide, by decide, by decide, by decide⟩

/-- C7 (amended): the GetParams response payload is 16 bytes, laid out
big-endian as `rx_buf_size(2) tx_buf_size(2) max_bitrate(4)
heartbeat_timeout_us(4) comm_rx_timeout_us(4)`, and the response code is
OK. -/
theorem C7_get_params_response_layout (P : BuildParams) (now new_session_id : Nat)
    (st : MainState) (req : Request) (hcmd : req.command_id = eCmdCommControl)
    (hsub : req.subfunction_id = eSubfnGetParams) (hvalid : req.valid = true)
    (htx : 16 ≤ P.tx_buffer_size) :
    (process_request P now new_session_id st req).1.data =
      encode_16_bits_big_endian P.rx_buffer_size ++
      encode_16_bits_big_endian P.tx_buffer_size ++
      encode_32_bits_big_endian P.max_bitrate ++
      encode_32_bits_big_endian P.heartbeat_timeout ++
      encode_32_bits_big_endian P.comm_rx_timeout ∧
    (process_request P now new_session_id st req).1.data_length = 16 ∧
    (process_request P now new_session_id st req).1.response_code = eResponseCode_OK := by
  rw [process_request, process_comm_control]
  simp only [hvalid, hcmd, hsub, eCmdCommControl, eCmdGetInfo, eSubfnDiscover,
    eSubfnHeartbeat, eSubfnGetParams, eResponseCode_OK]
  norm_num
  rw [if_neg (by omega : ¬ 16 > P.tx_buffer_size)]
  simp [encode_16_bits_big_endian, encode_32_bits_big_endian]

/-- C7 witness: the amended layout at `BUF_SIZE = 256`,
`max_bitrate = 0x12345678`. -/
theorem C7_witness :
    16 ≤ (256 : Nat) ∧
    (process_request ⟨4, 256, 256, 0x12345678, 5000000, 50000, List.replicate 16 0, [], []⟩
      0 1 ⟨⟨false, 0, 0⟩, false, fun _ => 0⟩
      ⟨eCmdCommControl, eSubfnGetParams, [], true⟩).1.data_length = 16 := by
  refine ⟨by decide, ?_⟩
  exact (C7_get_params_response_layout
    ⟨4, 256, 256, 0x12345678, 5000000, 50000, List.replicate 16 0, [], []⟩ 0 1
    ⟨⟨false, 0, 0⟩, false, fun _ => 0⟩ ⟨eCmdCommControl, eSubfnGetParams, [], true⟩
    rfl rfl rfl (by decide)).2.1

/-! ## Claim C8 -/

/-- C8 counterexample: a Connect request whose 4-byte payload differs
from `CONNECT_MAGIC` is still accepted: the decoder checks only the
length and never compares the copied magic bytes, so a session is created
and the request is answered OK. -/
theorem C8_counterexample_wrong_magic_connect_accepted :
    ([0, 0, 0, 0] ≠ CONNECT_MAGIC) ∧
    ((process_request ⟨4, 256, 256, 0, 5000000, 50000, List.replicate 16 0, [], []⟩ 0 7
        ⟨⟨false, 0, 0⟩, false, fun _ => 0⟩
        ⟨eCmdCommControl, eSubfnConnect, [0, 0, 0, 0], true⟩).1.response_code =
      eResponseCode_OK) ∧
    ((process_request ⟨4, 256, 256, 0, 5000000, 50000, List.replicate 16 0, [], []⟩ 0 7
        ⟨⟨false, 0, 0⟩, false, fun _ => 0⟩
        ⟨eCmdCommControl, eSubfnConnect, [0, 0, 0, 0], true⟩).2.session.connected = true) ∧
    ((process_request ⟨4, 256, 256, 0, 5000000, 50000, List.replicate 16 0, [], []⟩ 0 7
        ⟨⟨false, 0, 0⟩, false, fun _ => 0⟩
        ⟨eCmdCommControl, eSubfnConnect, [0, 0, 0, 0], true⟩).2.session.session_id = 7) := by
  refine ⟨by decide, by decide, by decide, by decide⟩

/-- C8 (amended): a Connect request is accepted whenever its payload is
exactly 4 bytes and no session exists; the payload bytes are copied but
never compared with `CONNECT_MAGIC`, so any 4-byte payload creates a
session and is answered OK. -/
theorem C8_connect_checks_only_length (P : BuildParams) (now new_session_id : Nat)
    (st : MainState) (req : Request) (hcmd : req.command_id = eCmdCommControl)
    (hsub : req.subfunction_id = eSubfnConnect) (hvalid : req.valid = true)
    (hlen : req.data.length = 4) (hconn : st.session.connected = false)
    (htx : 8 ≤ P.tx_buffer_size) :
    (process_request P now new_session_id st req).1.response_code = eResponseCode_OK ∧
    (process_request P now new_session_id st req).2.session.connected = true ∧
    (process_request P now new_session_id st req).2.session.session_id = new_session_id := by
  rw [process_request, process_comm_control]
  simp only [hvalid, hcmd, hsub, hlen, hconn, eCmdCommControl, eCmdGetInfo, eSubfnDiscover,
    eSubfnHeartbeat, eSubfnGetParams, eSubfnConnect, eResponseCode_OK, comm_connect]
  norm_num
  rw [if_neg (by omega : ¬ 8 > P.tx_buffer_size)]
  simp

/-- C8 witness: the amended statement at payload `[9, 9, 9, 9]`. -/
theorem C8_witness :
    (9 : Nat) ≠ CONNECT_MAGIC.getD 0 0 ∧
    (process_request ⟨4, 256, 256, 0, 5000000, 50000, List.replicate 16 0, [], []⟩ 0 3
      ⟨⟨false, 0, 0⟩, false, fun _ => 0⟩
      ⟨eCmdCommControl, eSubfnConnect, [9, 9, 9, 9], true⟩).1.response_code =
      eResponseCode_OK := by
  refine ⟨by decide, ?_⟩
  exact (C8_connect_checks_only_length
    ⟨4, 256, 256, 0, 5000000, 50000, List.replicate 16 0, [], []⟩ 0 3
    ⟨⟨false, 0, 0⟩, false, fun _ => 0⟩ ⟨eCmdCommControl, eSubfnConnect, [9, 9, 9, 9], true⟩
    rfl rfl rfl (by decide) rfl (by decide)).1

/-! ## CommHandler framing machine: helper lemmas -/

theorem land_127_of_lt (c : Nat) (h : c < 128) : c &&& 127 = c := by
  have := Nat.and_pow_two_sub_one_eq_mod c 7
  norm_num at this
  omega

/-- The rx timeout cannot fire when the previous byte arrived at the same
timestamp. -/
theorem is_elapsed_now_now (now : Nat) :
    is_elapsed now now SCRUTINY_COMM_TIMEOUT_US = false := by
  unfold is_elapsed SCRUTINY_COMM_TIMEOUT_US
  have h1 : now % 2 ^ 32 < 2 ^ 32 := Nat.mod_lt _ (by norm_num)
  simp only [decide_eq_false_iff_not, not_le]
  omega

/-- Two consecutive `memcpy`s into the buffer at adjacent offsets equal
one `memcpy` of the concatenation. -/
theorem mem_write_append (buf : Nat → Nat) (off : Nat) (xs ys : List Nat) :
    mem_write (mem_write buf off xs) (off + xs.length) ys =
      mem_write buf off (xs ++ ys) := by
  funext j
  unfold mem_write
  by_cases h1 : off + xs.length ≤ j ∧ j < off + xs.length + ys.length
  · rw [if_pos h1]
    have h2 : off ≤ j ∧ j < off + (xs ++ ys).length := by
      simp only [List.length_append]; omega
    rw [if_pos h2]
    rw [List.getD_append_right _ _ _ _ (by omega)]
    congr 1
    omega
  · rw [if_neg h1]
    by_cases h2 : off ≤ j ∧ j < off + xs.length
    · have h3 : off ≤ j ∧ j < off + (xs ++ ys).length := by
        simp only [List.length_append]; omega
      rw [if_pos h2, if_pos h3]
      rw [List.getD_append _ _ _ _ (by omega)]
    · have h3 : ¬ (off ≤ j ∧ j < off + (xs ++ ys).length) := by
        simp only [List.length_append]; omega
      rw [if_neg h2, if_neg h3]

/-- A function agreeing with `xs.getD` below `xs.length` maps
`List.range xs.length` onto `xs`. -/
theorem map_range_getD (xs : List Nat) (f : Nat → Nat)
    (h : ∀ j, j < xs.length → f j = xs.getD j 0) :
    (List.range xs.length).map f = xs := by
  apply List.ext_getElem
  · simp
  · intro i h1 h2
    simp only [List.getElem_map, List.getElem_range]
    rw [h i (by simpa using h2)]
    rw [List.getD_eq_getElem _ _ (by simpa using h2)]

/-! ### One-step equations for `rx_loop` -/

theorem rx_loop_nil (now : Nat) (st : CommRx) : rx_loop now st [] = st := by
  rw [rx_loop.eq_def]

/-- The loop consumes nothing once a request is pending, in the latched
error state, or in `WaitForProcess`. -/
theorem rx_loop_stuck (now : Nat) (st : CommRx) (bytes : List Nat)
    (h : st.m_request_received = true ∨ st.m_rx_state = .error ∨
      st.m_rx_state = .waitForProcess) :
    rx_loop now st bytes = st := by
  match bytes with
  | [] => exact rx_loop_nil now st
  | x :: rest =>
    rw [rx_loop.eq_def]
    dsimp only
    rcases h with h | h | h
    · rw [if_pos (Or.inl h)]
    · rw [if_pos (Or.inr h)]
    · by_cases hg : st.m_request_received = true ∨ st.m_rx_state = RxFSMState.error
      · rw [if_pos hg]
      · rw [if_neg hg, if_neg (by simp [h]), if_neg (by simp [h]), if_neg (by simp [h]),
          if_neg (by simp [h]), if_neg (by simp [h])]

theorem rx_loop_waitCmd (now : Nat) (st : CommRx) (x : Nat) (rest : List Nat)
    (hs : st.m_rx_state = .waitForCommand) (hrr : st.m_request_received = false) :
    rx_loop now st (x :: rest) = rx_loop now
      { st with req := { st.req with command_id := x &&& 0x7F }
                m_rx_state := .waitForSubfunction } rest := by
  rw [rx_loop.eq_def]
  dsimp only
  rw [if_neg (by simp [hs, hrr]), if_pos hs]

theorem rx_loop_waitSubfn (now : Nat) (st : CommRx) (x : Nat) (rest : List Nat)
    (hs : st.m_rx_state = .waitForSubfunction) (hrr : st.m_request_received = false) :
    rx_loop now st (x :: rest) = rx_loop now
      { st with req := { st.req with subfunction_id := x }
                m_rx_state := .waitForLength } rest := by
  rw [rx_loop.eq_def]
  dsimp only
  rw [if_neg (by simp [hs, hrr]), if_neg (by simp [hs]), if_pos hs]

theorem rx_loop_waitLength_two (now : Nat) (st : CommRx) (x y : Nat) (rest : List Nat)
    (hs : st.m_rx_state = .waitForLength) (hrr : st.m_request_received = false)
    (hl : st.m_length_bytes_received = 0) :
    rx_loop now st (x :: y :: rest) = rx_loop now
      { st with req := { st.req with data_length := x <<< 8 ||| y }
                m_length_bytes_received := 2
                m_rx_state := (if x <<< 8 ||| y = 0 then RxFSMState.waitForCRC
                  else RxFSMState.waitForData) } rest := by
  rw [rx_loop.eq_def]
  dsimp only
  rw [if_neg (by simp [hs, hrr]), if_neg (by simp [hs]), if_neg (by simp [hs]), if_pos hs,
    if_pos hl]

theorem rx_loop_waitLength_hi (now : Nat) (st : CommRx) (x : Nat)
    (hs : st.m_rx_state = .waitForLength) (hrr : st.m_request_received = false)
    (hl : st.m_length_bytes_received = 0) :
    rx_loop now st [x] =
      { st with req := { st.req with data_length := x <<< 8 }
                m_length_bytes_received := 1 } := by
  rw [rx_loop.eq_def]
  dsimp only
  rw [if_neg (by simp [hs, hrr]), if_neg (by simp [hs]), if_neg (by simp [hs]), if_pos hs,
    if_pos hl]
  exact rx_loop_nil now _

theorem rx_loop_waitLength_lo (now : Nat) (st : CommRx) (x : Nat) (rest : List Nat)
    (hs : st.m_rx_state = .waitForLength) (hrr : st.m_request_received = false)
    (hl : st.m_length_bytes_received ≠ 0) :
    rx_loop now st (x :: rest) = rx_loop now
      { st with req := { st.req with data_length := st.req.data_length ||| x }
                m_length_bytes_received := 2
                m_rx_state := (if st.req.data_length ||| x = 0 then RxFSMState.waitForCRC
                  else RxFSMState.waitForData) } rest := by
  rw [rx_loop.eq_def]
  dsimp only
  rw [if_neg (by simp [hs, hrr]), if_neg (by simp [hs]), if_neg (by simp [hs]), if_pos hs,
    if_neg hl]

theorem rx_loop_waitData_overflow (now : Nat) (st : CommRx) (x : Nat) (rest : List Nat)
    (hs : st.m_rx_state = .waitForData) (hrr : st.m_request_received = false)
    (hov : st.req.data_length > SCRUTINY_BUFFER_SIZE) :
    rx_loop now st (x :: rest) =
      { st with m_rx_error := .overflow
                m_rx_state := .error } := by
  rw [rx_loop.eq_def]
  dsimp only
  rw [if_neg (by simp [hs, hrr]), if_neg (by simp [hs]), if_neg (by simp [hs]),
    if_neg (by simp [hs]), if_pos hs, if_pos hov]

theorem rx_loop_waitData_bulk (now : Nat) (st : CommRx) (x : Nat) (rest : List Nat)
    (hs : st.m_rx_state = .waitForData) (hrr : st.m_request_received = false)
    (hov : ¬ st.req.data_length > SCRUTINY_BUFFER_SIZE) :
    rx_loop now st (x :: rest) =
      (let k := if (x :: rest).length ≥ st.req.data_length - st.m_data_bytes_received
        then st.req.data_length - st.m_data_bytes_received else (x :: rest).length
      rx_loop now
        { st with
          buffer := mem_write st.buffer st.m_data_bytes_received ((x :: rest).take k)
          m_data_bytes_received := st.m_data_bytes_received + k
          m_rx_state := (if st.m_data_bytes_received + k ≥ st.req.data_length
            then RxFSMState.waitForCRC else RxFSMState.waitForData) }
        ((x :: rest).drop k)) := by
  rw [rx_loop.eq_def]
  dsimp only
  rw [if_neg (by simp [hs, hrr]), if_neg (by simp [hs]), if_neg (by simp [hs]),
    if_neg (by simp [hs]), if_pos hs, if_neg hov]

theorem rx_loop_waitCRC_0 (now : Nat) (st : CommRx) (x : Nat) (rest : List Nat)
    (hs : st.m_rx_state = .waitForCRC) (hrr : st.m_request_received = false)
    (hc : st.m_crc_bytes_received = 0) :
    rx_loop now st (x :: rest) = rx_loop now
      { st with req := { st.req with crc := x <<< 24 }
                m_crc_bytes_received := 1 } rest := by
  rw [rx_loop.eq_def]
  dsimp only
  rw [if_neg (by simp [hs, hrr]), if_neg (by simp [hs]), if_neg (by simp [hs]),
    if_neg (by simp [hs]), if_neg (by simp [hs]), if_pos hs, if_pos hc]

theorem rx_loop_waitCRC_1 (now : Nat) (st : CommRx) (x : Nat) (rest : List Nat)
    (hs : st.m_rx_state = .waitForCRC) (hrr : st.m_request_received = false)
    (hc : st.m_crc_bytes_received = 1) :
    rx_loop now st (x :: rest) = rx_loop now
      { st with req := { st.req with crc := st.req.crc ||| x <<< 16 }
                m_crc_bytes_received := 2 } rest := by
  rw [rx_loop.eq_def]
  dsimp only
  rw [if_neg (by simp [hs, hrr]), if_neg (by simp [hs]), if_neg (by simp [hs]),
    if_neg (by simp [hs]), if_neg (by simp [hs]), if_pos hs, if_neg (by omega), if_pos hc]

theorem rx_loop_waitCRC_2 (now : Nat) (st : CommRx) (x : Nat) (rest : List Nat)
    (hs : st.m_rx_state = .waitForCRC) (hrr : st.m_request_received = false)
    (hc : st.m_crc_bytes_received = 2) :
    rx_loop now st (x :: rest) = rx_loop now
      { st with req := { st.req with crc := st.req.crc ||| x <<< 8 }
                m_crc_bytes_received := 3 } rest := by
  rw [rx_loop.eq_def]
  dsimp only
  rw [if_neg (by simp [hs, hrr]), if_neg (by simp [hs]), if_neg (by simp [hs]),
    if_neg (by simp [hs]), if_neg (by simp [hs]), if_pos hs, if_neg (by omega),
    if_neg (by omega), if_pos hc]

theorem rx_loop_waitCRC_final (now : Nat) (st : CommRx) (x : Nat) (rest : List Nat)
    (hs : st.m_rx_state = .waitForCRC) (hrr : st.m_request_received = false)
    (hc0 : st.m_crc_bytes_received ≠ 0) (hc1 : st.m_crc_bytes_received ≠ 1)
    (hc2 : st.m_crc_bytes_received ≠ 2) :
    rx_loop now st (x :: rest) =
      (let st1 := { st with req := { st.req with crc := st.req.crc ||| x }
                            m_state := CommState.idle }
      let st2 :=
        if check_crc st1 then
          if st1.m_enabled || check_must_enable st1 then
            { st1 with
              m_enabled := true
              req := { st1.req with valid := true }
              m_rx_state := .waitForProcess
              m_request_received := true }
          else reset_rx now st1
        else reset_rx now st1
      rx_loop now { st2 with m_crc_bytes_received := st2.m_crc_bytes_received + 1 } rest) := by
  rw [rx_loop.eq_def]
  dsimp only
  rw [if_neg (by simp [hs, hrr]), if_neg (by simp [hs]), if_neg (by simp [hs]),
    if_neg (by simp [hs]), if_neg (by simp [hs]), if_pos hs, if_neg hc0,
    if_neg hc1, if_neg hc2]

theorem ite_le_one (P : Prop) [Decidable P] : (if P then (1 : Nat) else 0) ≤ 1 := by
  split <;> omega

theorem mem_write_nil (buf : Nat → Nat) (off : Nat) : mem_write buf off [] = buf := by
  funext j
  unfold mem_write
  simp

/-! ### Reference states along a frame

For a fixed inbound frame
`CMD SUBFN LEN_HI LEN_LO DATA[0..L) K3 K2 K1 K0` the receive machine
passes through a known state after every consumed byte; `ref_state n` is
that state after `n` bytes.  `rx_loop_on_frame` below proves that the
loop maps `ref_state n` through any contiguous segment of the frame to
`ref_state` of the new position, independently of how the segment was
chunked, and to `rx_frame_final` when the segment ends the frame. -/

/-- A frame together with the receive-side environment it is consumed
in: the enable flag, the buffer and stale CRC field left over from
before, and the eight header/CRC bytes around the payload. -/
structure FrameCtx where
  enabled : Bool
  buf0 : Nat → Nat
  crc0 : Nat
  cmd : Nat
  subfn : Nat
  len_hi : Nat
  len_lo : Nat
  data : List Nat
  k3 : Nat
  k2 : Nat
  k1 : Nat
  k0 : Nat

/-- The wire bytes of the frame described by `ctx`. -/
def frame_bytes (ctx : FrameCtx) : List Nat :=
  ctx.cmd :: ctx.subfn :: ctx.len_hi :: ctx.len_lo ::
    (ctx.data ++ [ctx.k3, ctx.k2, ctx.k1, ctx.k0])

/-- Well-formedness: the length field matches the payload and the payload
fits the shared buffer. -/
def FrameCtx.wflen (ctx : FrameCtx) : Prop :=
  ctx.len_hi <<< 8 ||| ctx.len_lo = ctx.data.length ∧
    ctx.data.length ≤ SCRUTINY_BUFFER_SIZE

/-- The machine state after the first `n` bytes of the frame have been
consumed (`0 ≤ n ≤ 7 + L`, i.e. everything up to but not including the
final CRC byte). -/
def ref_state (ctx : FrameCtx) (now n : Nat) : CommRx :=
  { m_state := .receiving
    m_rx_state :=
      if n = 0 then .waitForCommand
      else if n = 1 then .waitForSubfunction
      else if n ≤ 3 then .waitForLength
      else if n < 4 + ctx.data.length then .waitForData
      else .waitForCRC
    req :=
      { command_id := if 1 ≤ n then ctx.cmd &&& 0x7F else 0
        subfunction_id := if 2 ≤ n then ctx.subfn else 0
        data_length := if n ≤ 2 then 0 else if n = 3 then ctx.len_hi <<< 8
          else ctx.len_hi <<< 8 ||| ctx.len_lo
        crc := if n ≤ 4 + ctx.data.length then ctx.crc0
          else if n = 5 + ctx.data.length then ctx.k3 <<< 24
          else if n = 6 + ctx.data.length then ctx.k3 <<< 24 ||| ctx.k2 <<< 16
          else ctx.k3 <<< 24 ||| ctx.k2 <<< 16 ||| ctx.k1 <<< 8
        valid := false }
    buffer := fun j => if j < min (n - 4) ctx.data.length then ctx.data.getD j 0
      else ctx.buf0 j
    m_request_received := false
    m_crc_bytes_received := n - (4 + ctx.data.length)
    m_length_bytes_received := if n ≤ 2 then 0 else if n = 3 then 1 else 2
    m_data_bytes_received := min (n - 4) ctx.data.length
    m_last_rx_timestamp := now
    m_rx_error := .noError
    m_enabled := ctx.enabled }

/-- The machine state after the whole frame: the final CRC byte is
assembled, `m_state` goes back to Idle, and the frame is either accepted
(CRC good and the handler enabled or enabled-by-this-Discover) or
silently dropped by `reset_rx` (after which `m_crc_bytes_received` is
still incremented, as in the C code). -/
def rx_frame_final (ctx : FrameCtx) (now : Nat) : CommRx :=
  let st := ref_state ctx now (7 + ctx.data.length)
  let st1 := { st with req := { st.req with crc := st.req.crc ||| ctx.k0 }
                       m_state := CommState.idle }
  let st2 :=
    if check_crc st1 then
      if st1.m_enabled || check_must_enable st1 then
        { st1 with m_enabled := true
                   req := { st1.req with valid := true }
                   m_rx_state := .waitForProcess
                   m_request_received := true }
      else reset_rx now st1
    else reset_rx now st1
  { st2 with m_crc_bytes_received := st2.m_crc_bytes_received + 1 }

/-- Dropping from a segment of `F` yields the corresponding later
segment of `F`. -/
theorem seg_drop (F c : List Nat) (n k : Nat) (hseg : c = (F.drop n).take c.length) :
    c.drop k = (F.drop (n + k)).take (c.drop k).length := by
  conv_lhs => rw [hseg]
  rw [List.drop_take, List.drop_drop, List.length_drop]

/-- The frame after its four header bytes. -/
theorem frame_drop4 (ctx : FrameCtx) :
    (frame_bytes ctx).drop 4 = ctx.data ++ [ctx.k3, ctx.k2, ctx.k1, ctx.k0] := rfl

/-- The frame after the header and the whole payload: only CRC bytes
remain. -/
theorem frame_drop_late (ctx : FrameCtx) (i : Nat) :
    (frame_bytes ctx).drop (4 + ctx.data.length + i) =
      List.drop i [ctx.k3, ctx.k2, ctx.k1, ctx.k0] := by
  rw [Nat.add_assoc, ← List.drop_drop, frame_drop4,
    List.drop_append_eq_append_drop]
  simp

/-- Consuming the command byte advances the reference state from 0 to 1. -/
theorem ref_step_cmd (ctx : FrameCtx) (now : Nat) :
    { ref_state ctx now 0 with
      req := { (ref_state ctx now 0).req with command_id := ctx.cmd &&& 0x7F }
      m_rx_state := RxFSMState.waitForSubfunction } = ref_state ctx now 1 := by
  simp only [ref_state, CommRx.mk.injEq, RxRequest.mk.injEq]
  norm_num [show (1:Nat) ≤ 4 + ctx.data.length from by omega,
    show (2:Nat) ≤ 4 + ctx.data.length from by omega,
    show (3:Nat) ≤ 4 + ctx.data.length from by omega]

/-- Consuming the subfunction byte advances the reference state from 1 to 2. -/
theorem ref_step_subfn (ctx : FrameCtx) (now : Nat) :
    { ref_state ctx now 1 with
      req := { (ref_state ctx now 1).req with subfunction_id := ctx.subfn }
      m_rx_state := RxFSMState.waitForLength } = ref_state ctx now 2 := by
  simp only [ref_state, CommRx.mk.injEq, RxRequest.mk.injEq]
  norm_num [show (1:Nat) ≤ 4 + ctx.data.length from by omega,
    show (2:Nat) ≤ 4 + ctx.data.length from by omega,
    show (3:Nat) ≤ 4 + ctx.data.length from by omega]

/-- Consuming both length bytes at once advances the reference state from
2 to 4. -/
theorem ref_step_len_two (ctx : FrameCtx) (now : Nat)
    (hL : ctx.len_hi <<< 8 ||| ctx.len_lo = ctx.data.length) :
    { ref_state ctx now 2 with
      req := { (ref_state ctx now 2).req with
        data_length := ctx.len_hi <<< 8 ||| ctx.len_lo }
      m_length_bytes_received := 2
      m_rx_state := (if ctx.len_hi <<< 8 ||| ctx.len_lo = 0 then RxFSMState.waitForCRC
        else RxFSMState.waitForData) } = ref_state ctx now 4 := by
  simp only [ref_state, CommRx.mk.injEq, RxRequest.mk.injEq, hL]
  norm_num
  first
    | done
    | (and_intros <;>
        first
          | (split_ifs <;> first | rfl | omega | simp_all)
          | omega
          | (funext j
             split_ifs <;> first | rfl | omega))

/-- Consuming only the high length byte advances the reference state from
2 to 3. -/
theorem ref_step_len_hi (ctx : FrameCtx) (now : Nat) :
    { ref_state ctx now 2 with
      req := { (ref_state ctx now 2).req with data_length := ctx.len_hi <<< 8 }
      m_length_bytes_received := 1 } = ref_state ctx now 3 := by
  simp only [ref_state, CommRx.mk.injEq, RxRequest.mk.injEq]
  norm_num [show (1:Nat) ≤ 4 + ctx.data.length from by omega,
    show (2:Nat) ≤ 4 + ctx.data.length from by omega,
    show (3:Nat) ≤ 4 + ctx.data.length from by omega]

/-- Consuming the low length byte advances the reference state from 3
to 4. -/
theorem ref_step_len_lo (ctx : FrameCtx) (now : Nat)
    (hL : ctx.len_hi <<< 8 ||| ctx.len_lo = ctx.data.length) :
    { ref_state ctx now 3 with
      req := { (ref_state ctx now 3).req with
        data_length := (ref_state ctx now 3).req.data_length ||| ctx.len_lo }
      m_length_bytes_received := 2
      m_rx_state := (if (ref_state ctx now 3).req.data_length ||| ctx.len_lo = 0
        then RxFSMState.waitForCRC else RxFSMState.waitForData) } =
      ref_state ctx now 4 := by
  simp only [ref_state, CommRx.mk.injEq, RxRequest.mk.injEq]
  norm_num [hL]
  first
    | done
    | (and_intros <;>
        first
          | (split_ifs <;> first | rfl | omega | simp_all)
          | omega
          | (funext j
             split_ifs <;> first | rfl | omega))

/-- Consuming the first CRC byte. -/
theorem ref_step_crc0 (ctx : FrameCtx) (now : Nat) :
    { ref_state ctx now (4 + ctx.data.length) with
      req := { (ref_state ctx now (4 + ctx.data.length)).req with
        crc := ctx.k3 <<< 24 }
      m_crc_bytes_received := 1 } = ref_state ctx now (5 + ctx.data.length) := by
  simp only [ref_state, CommRx.mk.injEq, RxRequest.mk.injEq]
  norm_num
  first
    | done
    | (and_intros <;>
        first
          | (split_ifs <;> first | rfl | omega | simp_all)
          | omega
          | (funext j
             split_ifs <;> first | rfl | omega))

/-- Consuming the second CRC byte. -/
theorem ref_step_crc1 (ctx : FrameCtx) (now : Nat) :
    { ref_state ctx now (5 + ctx.data.length) with
      req := { (ref_state ctx now (5 + ctx.data.length)).req with
        crc := (ref_state ctx now (5 + ctx.data.length)).req.crc ||| ctx.k2 <<< 16 }
      m_crc_bytes_received := 2 } = ref_state ctx now (6 + ctx.data.length) := by
  simp only [ref_state, CommRx.mk.injEq, RxRequest.mk.injEq]
  norm_num
  first
    | done
    | (and_intros <;>
        first
          | (split_ifs <;> first | rfl | omega | simp_all)
          | omega
          | (funext j
             split_ifs <;> first | rfl | omega))

/-- Consuming the third CRC byte. -/
theorem ref_step_crc2 (ctx : FrameCtx) (now : Nat) :
    { ref_state ctx now (6 + ctx.data.length) with
      req := { (ref_state ctx now (6 + ctx.data.length)).req with
        crc := (ref_state ctx now (6 + ctx.data.length)).req.crc ||| ctx.k1 <<< 8 }
      m_crc_bytes_received := 3 } = ref_state ctx now (7 + ctx.data.length) := by
  simp only [ref_state, CommRx.mk.injEq, RxRequest.mk.injEq]
  norm_num
  first
    | done
    | (and_intros <;>
        first
          | (split_ifs <;> first | rfl | omega | simp_all)
          | omega
          | (funext j
             split_ifs <;> first | rfl | omega))

/-- A payload segment of the frame, viewed from position `n`. -/
theorem frame_drop_mid (ctx : FrameCtx) (n : Nat) (h4 : 4 ≤ n) :
    (frame_bytes ctx).drop n = ctx.data.drop (n - 4) ++
      List.drop (n - 4 - ctx.data.length) [ctx.k3, ctx.k2, ctx.k1, ctx.k0] := by
  conv_lhs => rw [show n = 4 + (n - 4) from by omega]
  rw [← List.drop_drop, frame_drop4, List.drop_append_eq_append_drop]

set_option maxHeartbeats 1000000 in
/-- Consuming payload bytes: one `WaitForData` iteration advances the
reference state by the block size the C code `memcpy`s. -/
theorem ref_step_data (ctx : FrameCtx) (now n : Nat) (x : Nat) (rest : List Nat)
    (hL : ctx.len_hi <<< 8 ||| ctx.len_lo = ctx.data.length)
    (hBS : ctx.data.length ≤ SCRUTINY_BUFFER_SIZE)
    (h4 : 4 ≤ n) (hn : n < 4 + ctx.data.length)
    (hseg : x :: rest = ((frame_bytes ctx).drop n).take (x :: rest).length) :
    ∃ q, 1 ≤ q ∧ q ≤ (x :: rest).length ∧ n + q ≤ 4 + ctx.data.length ∧
      rx_loop now (ref_state ctx now n) (x :: rest) =
        rx_loop now (ref_state ctx now (n + q)) ((x :: rest).drop q) := by
  have hdl : (ref_state ctx now n).req.data_length = ctx.data.length := by
    simp only [ref_state]
    rw [if_neg (by omega), if_neg (by omega)]
    exact hL
  have hdb : (ref_state ctx now n).m_data_bytes_received = n - 4 := by
    simp only [ref_state]
    omega
  have hs : (ref_state ctx now n).m_rx_state = RxFSMState.waitForData := by
    simp only [ref_state]
    rw [if_neg (by omega), if_neg (by omega), if_neg (by omega), if_pos (by omega)]
  have hov : ¬ (ref_state ctx now n).req.data_length > SCRUTINY_BUFFER_SIZE := by
    rw [hdl]
    omega
  rw [rx_loop_waitData_bulk now (ref_state ctx now n) x rest hs rfl hov]
  rw [hdl, hdb]
  refine ⟨if (x :: rest).length ≥ ctx.data.length - (n - 4)
      then ctx.data.length - (n - 4) else (x :: rest).length,
    by simp only [List.length_cons]; split_ifs <;> omega,
    by simp only [List.length_cons]; split_ifs <;> omega,
    by simp only [List.length_cons]; split_ifs <;> omega, ?_⟩
  have hctake : ∀ k, k ≤ (x :: rest).length → k ≤ ctx.data.length - (n - 4) →
      (x :: rest).take k = (ctx.data.drop (n - 4)).take k := by
    intro k hk1 hk2
    conv_lhs => rw [hseg]
    rw [List.take_take, min_eq_left hk1, frame_drop_mid ctx n h4,
      List.take_append_of_le_length (by simp only [List.length_drop]; omega)]
  set q : Nat := if (x :: rest).length ≥ ctx.data.length - (n - 4)
    then ctx.data.length - (n - 4) else (x :: rest).length with hqdef
  have hq1 : 1 ≤ q := by
    rw [hqdef]
    simp only [List.length_cons]
    split_ifs <;> omega
  have hq2 : q ≤ (x :: rest).length := by
    rw [hqdef]
    split_ifs <;> omega
  have hq2b : q ≤ rest.length + 1 := by
    rw [hqdef]
    simp only [List.length_cons]
    split_ifs <;> omega
  have hq3 : q ≤ ctx.data.length - (n - 4) := by
    rw [hqdef]
    split_ifs <;> omega
  have hval : ∀ i, i < q → ((x :: rest).take q).getD i 0 = ctx.data.getD ((n - 4) + i) 0 := by
    intro i hi
    rw [hctake q hq2 hq3, List.getD_eq_getElem?_getD, List.getElem?_take, if_pos hi,
      List.getElem?_drop, ← List.getD_eq_getElem?_getD]
  have hstate : { ref_state ctx now n with
      buffer := mem_write (ref_state ctx now n).buffer (n - 4) ((x :: rest).take q)
      m_data_bytes_received := n - 4 + q
      m_rx_state := (if n - 4 + q ≥ ctx.data.length then RxFSMState.waitForCRC
        else RxFSMState.waitForData) } = ref_state ctx now (n + q) := by
    simp only [ref_state, CommRx.mk.injEq, RxRequest.mk.injEq, true_and, and_true]
    and_intros <;>
      first
        | (funext j
           simp only [mem_write, List.length_take, List.length_cons]
           split_ifs <;>
             first
               | rfl
               | omega
               | (rw [hval (j - (n - 4)) (by omega)]
                  congr 1
                  omega)
               | (exfalso
                  omega))
        | (split_ifs <;> first | omega | rfl)
        | omega
  dsimp only
  exact congrArg (fun st => rx_loop now st (List.drop q (x :: rest))) hstate

set_option maxHeartbeats 1600000 in
/-- Fuel-indexed core of `rx_loop_on_frame`. -/
theorem rx_loop_on_frame_aux (ctx : FrameCtx) (now : Nat) (hwf : ctx.wflen) :
    ∀ k n c e, c.length ≤ k → c ≠ [] → e = n + c.length →
      e ≤ 8 + ctx.data.length → c = ((frame_bytes ctx).drop n).take c.length →
      rx_loop now (ref_state ctx now n) c =
        (if e ≤ 7 + ctx.data.length then ref_state ctx now e
         else rx_frame_final ctx now) := by
  have hL : ctx.len_hi <<< 8 ||| ctx.len_lo = ctx.data.length := hwf.1
  have hBS : ctx.data.length ≤ SCRUTINY_BUFFER_SIZE := hwf.2
  intro k
  induction k with
  | zero =>
    intro n c e hk hc he hlen hseg
    rcases c with _ | ⟨x, rest⟩
    · exact absurd rfl hc
    · simp only [List.length_cons] at hk
      omega
  | succ k IH =>
    intro n c e hk hc he hlen hseg
    rcases c with _ | ⟨x, rest⟩
    · exact absurd rfl hc
    simp only [List.length_cons] at he hk
    by_cases h0 : n = 0
    · subst h0
      have hseg1 : rest = ((frame_bytes ctx).drop 1).take rest.length := by
        have h := seg_drop (frame_bytes ctx) (x :: rest) 0 1 hseg
        simpa using h
      rw [List.drop_zero] at hseg
      simp only [frame_bytes, List.length_cons, List.take_succ_cons, List.cons.injEq] at hseg
      obtain ⟨hx, -⟩ := hseg
      subst hx
      rw [rx_loop_waitCmd now (ref_state ctx now 0) ctx.cmd rest rfl rfl, ref_step_cmd]
      by_cases hre : rest = []
      · subst hre
        simp only [List.length_nil] at he
        rw [rx_loop_nil, show e = 1 from by omega, if_pos (by omega)]
      · rw [IH 1 rest e (by omega) hre (by omega) hlen hseg1]
    by_cases h1 : n = 1
    · subst h1
      have hseg1 : rest = ((frame_bytes ctx).drop 2).take rest.length := by
        have h := seg_drop (frame_bytes ctx) (x :: rest) 1 1 hseg
        simpa using h
      have hd : (frame_bytes ctx).drop 1 = ctx.subfn :: ctx.len_hi :: ctx.len_lo ::
          (ctx.data ++ [ctx.k3, ctx.k2, ctx.k1, ctx.k0]) := rfl
      rw [hd] at hseg
      simp only [List.length_cons, List.take_succ_cons, List.cons.injEq] at hseg
      obtain ⟨hx, -⟩ := hseg
      subst hx
      rw [rx_loop_waitSubfn now (ref_state ctx now 1) ctx.subfn rest rfl rfl, ref_step_subfn]
      by_cases hre : rest = []
      · subst hre
        simp only [List.length_nil] at he
        rw [rx_loop_nil, show e = 2 from by omega, if_pos (by omega)]
      · rw [IH 2 rest e (by omega) hre (by omega) hlen hseg1]
    by_cases h2 : n = 2
    · subst h2
      have hd : (frame_bytes ctx).drop 2 = ctx.len_hi :: ctx.len_lo ::
          (ctx.data ++ [ctx.k3, ctx.k2, ctx.k1, ctx.k0]) := rfl
      rcases rest with _ | ⟨y, rest2⟩
      · rw [hd] at hseg
        simp only [List.length_cons, List.length_nil, List.take_succ_cons,
          List.cons.injEq] at hseg
        obtain ⟨hx, -⟩ := hseg
        subst hx
        rw [rx_loop_waitLength_hi now (ref_state ctx now 2) ctx.len_hi rfl rfl rfl,
          ref_step_len_hi]
        simp only [List.length_nil] at he
        rw [show e = 3 from by omega, if_pos (by omega)]
      · have hseg2 : rest2 = ((frame_bytes ctx).drop 4).take rest2.length := by
          have h := seg_drop (frame_bytes ctx) (x :: y :: rest2) 2 2 hseg
          simpa using h
        rw [hd] at hseg
        simp only [List.length_cons, List.take_succ_cons, List.cons.injEq] at hseg
        obtain ⟨hx, hy, -⟩ := hseg
        subst hx
        subst hy
        rw [rx_loop_waitLength_two now (ref_state ctx now 2) ctx.len_hi ctx.len_lo rest2
          rfl rfl rfl, ref_step_len_two ctx now hL]
        simp only [List.length_cons] at he hk
        by_cases hre : rest2 = []
        · subst hre
          simp only [List.length_nil] at he
          rw [rx_loop_nil, show e = 4 from by omega, if_pos (by omega)]
        · rw [IH 4 rest2 e (by omega) hre (by omega) hlen hseg2]
    by_cases h3 : n = 3
    · subst h3
      have hseg1 : rest = ((frame_bytes ctx).drop 4).take rest.length := by
        have h := seg_drop (frame_bytes ctx) (x :: rest) 3 1 hseg
        simpa using h
      have hd : (frame_bytes ctx).drop 3 = ctx.len_lo ::
          (ctx.data ++ [ctx.k3, ctx.k2, ctx.k1, ctx.k0]) := rfl
      rw [hd] at hseg
      simp only [List.length_cons, List.take_succ_cons, List.cons.injEq] at hseg
      obtain ⟨hx, -⟩ := hseg
      subst hx
      rw [rx_loop_waitLength_lo now (ref_state ctx now 3) ctx.len_lo rest rfl rfl
        (by simp [ref_state]), ref_step_len_lo ctx now hL]
      by_cases hre : rest = []
      · subst hre
        simp only [List.length_nil] at he
        rw [rx_loop_nil, show e = 4 from by omega, if_pos (by omega)]
      · rw [IH 4 rest e (by omega) hre (by omega) hlen hseg1]
    by_cases hD : n < 4 + ctx.data.length
    · have h4 : 4 ≤ n := by omega
      obtain ⟨q, hq1, hq2, hq3, heq⟩ := ref_step_data ctx now n x rest hL hBS h4 hD hseg
      simp only [List.length_cons] at hq2
      rw [heq]
      by_cases hre : (x :: rest).drop q = []
      · have hql : q = rest.length + 1 := by
          have hlen0 := congrArg List.length hre
          simp only [List.length_drop, List.length_cons, List.length_nil] at hlen0
          omega
        rw [hre, rx_loop_nil, show e = n + q from by omega, if_pos (by omega)]
      · rw [IH (n + q) ((x :: rest).drop q) e
          (by simp only [List.length_drop, List.length_cons]; omega) hre
          (by simp only [List.length_drop, List.length_cons]; omega) hlen
          (seg_drop (frame_bytes ctx) (x :: rest) n q hseg)]
    by_cases hC0 : n = 4 + ctx.data.length
    · subst hC0
      have hseg1 : rest = ((frame_bytes ctx).drop (5 + ctx.data.length)).take rest.length := by
        have h := seg_drop (frame_bytes ctx) (x :: rest) (4 + ctx.data.length) 1 hseg
        rw [show 4 + ctx.data.length + 1 = 5 + ctx.data.length from by omega] at h
        simpa using h
      have hd : (frame_bytes ctx).drop (4 + ctx.data.length) =
          [ctx.k3, ctx.k2, ctx.k1, ctx.k0] := by
        have h := frame_drop_late ctx 0
        simpa using h
      rw [hd] at hseg
      simp only [List.length_cons, List.take_succ_cons, List.cons.injEq] at hseg
      obtain ⟨hx, -⟩ := hseg
      subst hx
      rw [rx_loop_waitCRC_0 now (ref_state ctx now (4 + ctx.data.length)) ctx.k3 rest
        (by simp only [ref_state]; rw [if_neg (by omega), if_neg (by omega),
          if_neg (by omega), if_neg (by omega)]) rfl
        (by simp only [ref_state]; omega), ref_step_crc0]
      by_cases hre : rest = []
      · subst hre
        simp only [List.length_nil] at he
        rw [rx_loop_nil, show e = 5 + ctx.data.length from by omega, if_pos (by omega)]
      · rw [IH (5 + ctx.data.length) rest e (by omega) hre (by omega) hlen hseg1]
    by_cases hC1 : n = 5 + ctx.data.length
    · subst hC1
      have hseg1 : rest = ((frame_bytes ctx).drop (6 + ctx.data.length)).take rest.length := by
        have h := seg_drop (frame_bytes ctx) (x :: rest) (5 + ctx.data.length) 1 hseg
        rw [show 5 + ctx.data.length + 1 = 6 + ctx.data.length from by omega] at h
        simpa using h
      have hd : (frame_bytes ctx).drop (5 + ctx.data.length) = [ctx.k2, ctx.k1, ctx.k0] := by
        rw [show 5 + ctx.data.length = 4 + ctx.data.length + 1 from by omega,
          frame_drop_late]
        rfl
      rw [hd] at hseg
      simp only [List.length_cons, List.take_succ_cons, List.cons.injEq] at hseg
      obtain ⟨hx, -⟩ := hseg
      subst hx
      rw [rx_loop_waitCRC_1 now (ref_state ctx now (5 + ctx.data.length)) ctx.k2 rest
        (by simp only [ref_state]; rw [if_neg (by omega), if_neg (by omega),
          if_neg (by omega), if_neg (by omega)]) rfl
        (by simp only [ref_state]; omega), ref_step_crc1]
      by_cases hre : rest = []
      · subst hre
        simp only [List.length_nil] at he
        rw [rx_loop_nil, show e = 6 + ctx.data.length from by omega, if_pos (by omega)]
      · rw [IH (6 + ctx.data.length) rest e (by omega) hre (by omega) hlen hseg1]
    by_cases hC2 : n = 6 + ctx.data.length
    · subst hC2
      have hseg1 : rest = ((frame_bytes ctx).drop (7 + ctx.data.length)).take rest.length := by
        have h := seg_drop (frame_bytes ctx) (x :: rest) (6 + ctx.data.length) 1 hseg
        rw [show 6 + ctx.data.length + 1 = 7 + ctx.data.length from by omega] at h
        simpa using h
      have hd : (frame_bytes ctx).drop (6 + ctx.data.length) = [ctx.k1, ctx.k0] := by
        rw [show 6 + ctx.data.length = 4 + ctx.data.length + 2 from by omega,
          frame_drop_late]
        rfl
      rw [hd] at hseg
      simp only [List.length_cons, List.take_succ_cons, List.cons.injEq] at hseg
      obtain ⟨hx, -⟩ := hseg
      subst hx
      rw [rx_loop_waitCRC_2 now (ref_state ctx now (6 + ctx.data.length)) ctx.k1 rest
        (by simp only [ref_state]; rw [if_neg (by omega), if_neg (by omega),
          if_neg (by omega), if_neg (by omega)]) rfl
        (by simp only [ref_state]; omega), ref_step_crc2]
      by_cases hre : rest = []
      · subst hre
        simp only [List.length_nil] at he
        rw [rx_loop_nil, show e = 7 + ctx.data.length from by omega, if_pos (by omega)]
      · rw [IH (7 + ctx.data.length) rest e (by omega) hre (by omega) hlen hseg1]
    have hC3 : n = 7 + ctx.data.length := by omega
    subst hC3
    have hre : rest = [] := by
      refine List.eq_nil_of_length_eq_zero ?_
      omega
    subst hre
    have hd : (frame_bytes ctx).drop (7 + ctx.data.length) = [ctx.k0] := by
      rw [show 7 + ctx.data.length = 4 + ctx.data.length + 3 from by omega,
        frame_drop_late]
      rfl
    rw [hd] at hseg
    simp only [List.length_cons, List.length_nil, List.take_succ_cons, List.cons.injEq] at hseg
    obtain ⟨hx, -⟩ := hseg
    subst hx
    rw [rx_loop_waitCRC_final now (ref_state ctx now (7 + ctx.data.length)) ctx.k0 []
      (by simp only [ref_state]; rw [if_neg (by omega), if_neg (by omega),
        if_neg (by omega), if_neg (by omega)]) rfl
      (by simp only [ref_state]; omega) (by simp only [ref_state]; omega)
      (by simp only [ref_state]; omega)]
    rw [if_neg (by simp only [List.length_nil] at he; omega)]
    simp only [rx_frame_final]
    rw [rx_loop_nil]

/-- The receive loop maps the reference state through any nonempty
contiguous segment of the frame: it lands on the reference state at the
segment's end position, or on `rx_frame_final` when the segment consumes
the final CRC byte.  In particular the FSM's behaviour on a frame does
not depend on how the frame is chunked into `process_data` calls. -/
theorem rx_loop_on_frame (ctx : FrameCtx) (now n : Nat) (c : List Nat) (e : Nat)
    (hwf : ctx.wflen) (hc : c ≠ [])
    (he : e = n + c.length) (hlen : e ≤ 8 + ctx.data.length)
    (hseg : c = ((frame_bytes ctx).drop n).take c.length) :
    rx_loop now (ref_state ctx now n) c =
      (if e ≤ 7 + ctx.data.length then ref_state ctx now e
       else rx_frame_final ctx now) :=
  rx_loop_on_frame_aux ctx now hwf c.length n c e (le_refl _) hc he hlen hseg

/-- The frame is 8 bytes of overhead plus the payload. -/
theorem frame_bytes_length (ctx : FrameCtx) :
    (frame_bytes ctx).length = 8 + ctx.data.length := by
  simp [frame_bytes]
  omega

/-- `process_data` housekeeping is a no-op on a mid-frame reference state
when the chunk arrives at the same timestamp: the state is Receiving, the
timestamp is unchanged and the rx timeout cannot fire. -/
theorem process_data_ref (ctx : FrameCtx) (now n : Nat) (c : List Nat) :
    process_data now (ref_state ctx now n) c = rx_loop now (ref_state ctx now n) c := by
  unfold process_data
  rw [if_neg (by simp [ref_state])]
  dsimp only
  rw [show (ref_state ctx now n).m_last_rx_timestamp = now from rfl, is_elapsed_now_now]
  simp only [Bool.false_eq_true, if_false, ite_self]
  by_cases hc : c ≠ []
  · rw [if_pos hc]
    refine congrArg (fun st => rx_loop now st c) ?_
    simp only [ref_state, CommRx.mk.injEq, RxRequest.mk.injEq]
    norm_num
  · rw [if_neg hc]

/-- Feeding the first chunk to an idle handler: the housekeeping step
turns the idle state into the position-0 reference state. -/
theorem process_data_idle (ctx : FrameCtx) (now t0 : Nat) (c : List Nat)
    (hc : c ≠ []) :
    process_data now (idle_state ctx.enabled ctx.buf0 ctx.crc0 t0) c =
      rx_loop now (ref_state ctx now 0) c := by
  unfold process_data
  rw [if_neg (by simp [idle_state])]
  dsimp only
  rw [if_neg (show ¬ ((idle_state ctx.enabled ctx.buf0 ctx.crc0 t0).m_rx_state ≠
      RxFSMState.waitForCommand ∧ c ≠ []) from fun h => h.1 rfl), if_pos hc]
  refine congrArg (fun st => rx_loop now st c) ?_
  simp only [idle_state, ref_state, CommRx.mk.injEq, RxRequest.mk.injEq]
  norm_num
  first
    | done
    | (and_intros <;>
        first
          | (funext j
             rw [if_neg (by omega)])
          | omega
          | (split_ifs <;> first | omega | rfl))

/-- Folding `process_data` over a chunked mid-frame byte stream: as long
as the chunks are nonempty and contiguous in the frame, the handler walks
the reference states, landing in `rx_frame_final` when the last chunk
consumes the final CRC byte. -/
theorem fold_process_ref (ctx : FrameCtx) (now : Nat) (hwf : ctx.wflen) :
    ∀ (chunks : List (List Nat)) (n e : Nat),
      (∀ ch ∈ chunks, ch ≠ []) → n ≤ 7 + ctx.data.length →
      e = n + chunks.flatten.length → e ≤ 8 + ctx.data.length →
      chunks.flatten = ((frame_bytes ctx).drop n).take chunks.flatten.length →
      chunks.foldl (process_data now) (ref_state ctx now n) =
        (if e ≤ 7 + ctx.data.length then ref_state ctx now e
         else rx_frame_final ctx now) := by
  intro chunks
  induction chunks with
  | nil =>
    intro n e hne hn he hlen hseg
    simp only [List.flatten_nil, List.length_nil] at he
    simp only [List.foldl_nil]
    rw [show e = n from by omega, if_pos hn]
  | cons ch rest IH =>
    intro n e hne hn he hlen hseg
    have hch : ch ≠ [] := hne ch (by simp)
    have hflatlen : (ch :: rest).flatten.length = ch.length + rest.flatten.length := by
      simp [List.flatten_cons]
    have hsegch : ch = ((frame_bytes ctx).drop n).take ch.length := by
      have h2 := congrArg (fun l => List.take ch.length l) hseg
      dsimp only at h2
      rw [List.flatten_cons, List.take_append_of_le_length (le_refl ch.length),
        List.take_length, List.take_take] at h2
      rw [min_eq_left (by simp only [List.flatten_cons, List.length_append]; omega)] at h2
      exact h2
    rw [List.foldl_cons, process_data_ref,
      rx_loop_on_frame ctx now n ch (n + ch.length) hwf hch rfl (by omega) hsegch]
    by_cases hmid : n + ch.length ≤ 7 + ctx.data.length
    · rw [if_pos hmid]
      have hsegrest : rest.flatten =
          ((frame_bytes ctx).drop (n + ch.length)).take rest.flatten.length := by
        have h3 := seg_drop (frame_bytes ctx) (ch :: rest).flatten n ch.length hseg
        rw [List.flatten_cons, List.drop_left] at h3
        exact h3
      rw [IH (n + ch.length) e (fun c hcm => hne c (by simp [hcm])) hmid
        (by rw [hflatlen] at he; omega) hlen hsegrest]
    · rw [if_neg hmid]
      have hrest : rest = [] := by
        rcases rest with _ | ⟨c2, r2⟩
        · rfl
        · exfalso
          have hc2 : c2 ≠ [] := hne c2 (by simp)
          have hc2l : 1 ≤ c2.length := List.length_pos.mpr hc2
          rw [hflatlen] at he
          simp only [List.flatten_cons, List.length_append] at he
          omega
      subst hrest
      simp only [List.foldl_nil]
      rw [hflatlen] at he
      simp only [List.flatten_nil, List.length_nil] at he
      rw [if_neg (by omega)]

/-- Any partition of the full frame into nonempty chunks drives an idle
handler to `rx_frame_final`: the outcome does not depend on the chunking. -/
theorem process_frame_chunked (ctx : FrameCtx) (now t0 : Nat)
    (chunks : List (List Nat)) (hwf : ctx.wflen)
    (hne : ∀ ch ∈ chunks, ch ≠ [])
    (hflat : chunks.flatten = frame_bytes ctx) :
    chunks.foldl (process_data now) (idle_state ctx.enabled ctx.buf0 ctx.crc0 t0) =
      rx_frame_final ctx now := by
  rcases chunks with _ | ⟨ch, rest⟩
  · exfalso
    have h := congrArg List.length hflat
    rw [frame_bytes_length] at h
    simp only [List.flatten_nil, List.length_nil] at h
    omega
  have hch : ch ≠ [] := hne ch (by simp)
  have hflatlen := congrArg List.length hflat
  rw [frame_bytes_length] at hflatlen
  simp only [List.flatten_cons, List.length_append] at hflatlen
  have hsegch : ch = ((frame_bytes ctx).drop 0).take ch.length := by
    rw [List.drop_zero, ← hflat, List.flatten_cons,
      List.take_append_of_le_length (le_refl ch.length), List.take_length]
  rw [List.foldl_cons, process_data_idle ctx now t0 ch hch,
    rx_loop_on_frame ctx now 0 ch ch.length hwf hch (by omega) (by omega) hsegch]
  by_cases hmid : ch.length ≤ 7 + ctx.data.length
  · rw [if_pos hmid]
    have hsegrest : rest.flatten =
        ((frame_bytes ctx).drop ch.length).take rest.flatten.length := by
      have h3 := seg_drop (frame_bytes ctx) (ch :: rest).flatten 0 ch.length
        (by rw [List.drop_zero, ← hflat]
            rw [List.take_length])
      rw [List.flatten_cons, List.drop_left] at h3
      simpa using h3
    have h := fold_process_ref ctx now hwf rest ch.length (8 + ctx.data.length)
      (fun c hcm => hne c (by simp [hcm])) hmid (by omega) (le_refl _) hsegrest
    rw [if_neg (by omega)] at h
    exact h
  · rw [if_neg hmid]
    have hrest : rest = [] := by
      rcases rest with _ | ⟨c2, r2⟩
      · rfl
      · exfalso
        have hc2 : c2 ≠ [] := hne c2 (by simp)
        have hc2l : 1 ≤ c2.length := List.length_pos.mpr hc2
        simp only [List.flatten_cons, List.length_append] at hflatlen
        omega
    subst hrest
    simp only [List.foldl_nil]

/-- Masking with `0xFF` keeps a byte. -/
theorem land_255_of_lt (c : Nat) (h : c < 256) : c &&& 255 = c := by
  have := Nat.and_pow_two_sub_one_eq_mod c 8
  norm_num at this
  omega

/-- The high byte of a 16-bit length field is recovered by the CRC
header reconstruction. -/
theorem len_hi_extract (hi lo : Nat) (hhi : hi < 256) (hlo : lo < 256) :
    ((hi <<< 8 ||| lo) >>> 8) &&& 255 = hi := by
  rw [shiftLeft_lor_eq_add 8 hi lo (by omega), Nat.shiftRight_eq_div_pow]
  have hdiv : (hi * 2 ^ 8 + lo) / 2 ^ 8 = hi := by omega
  rw [hdiv, land_255_of_lt hi hhi]

/-- The low byte of a 16-bit length field is recovered by the CRC
header reconstruction. -/
theorem len_lo_extract (hi lo : Nat) (hlo : lo < 256) :
    (hi <<< 8 ||| lo) &&& 255 = lo := by
  rw [shiftLeft_lor_eq_add 8 hi lo (by omega)]
  have := Nat.and_pow_two_sub_one_eq_mod (hi * 2 ^ 8 + lo) 8
  norm_num at this ⊢
  omega

/-- The state right after a frame is accepted: a pending valid request
carrying the frame's header fields and full CRC, handler enabled. -/
def rx_accept_state (ctx : FrameCtx) (now : Nat) : CommRx :=
  { m_state := .idle
    m_rx_state := .waitForProcess
    req := { command_id := ctx.cmd &&& 0x7F
             subfunction_id := ctx.subfn
             data_length := ctx.len_hi <<< 8 ||| ctx.len_lo
             crc := ctx.k3 <<< 24 ||| ctx.k2 <<< 16 ||| ctx.k1 <<< 8 ||| ctx.k0
             valid := true }
    buffer := fun j => if j < ctx.data.length then ctx.data.getD j 0 else ctx.buf0 j
    m_request_received := true
    m_crc_bytes_received := 4
    m_length_bytes_received := 2
    m_data_bytes_received := ctx.data.length
    m_last_rx_timestamp := now
    m_rx_error := .noError
    m_enabled := true }

/-- The state after a frame is silently dropped (`reset_rx`, plus the
CRC-byte counter quirk): no pending request, no valid record, the enable
flag unchanged. -/
def rx_drop_state (ctx : FrameCtx) (now : Nat) : CommRx :=
  { m_state := .idle
    m_rx_state := .waitForCommand
    req := { command_id := 0
             subfunction_id := 0
             data_length := 0
             crc := ctx.k3 <<< 24 ||| ctx.k2 <<< 16 ||| ctx.k1 <<< 8 ||| ctx.k0
             valid := false }
    buffer := fun j => if j < ctx.data.length then ctx.data.getD j 0 else ctx.buf0 j
    m_request_received := false
    m_crc_bytes_received := 1
    m_length_bytes_received := 0
    m_data_bytes_received := 0
    m_last_rx_timestamp := now
    m_rx_error := .noError
    m_enabled := ctx.enabled }

/-- Whether the frame qualifies as an enabling Discover
(`check_must_enable` evaluated over the frame's fields). -/
def must_enable_frame (ctx : FrameCtx) : Bool :=
  if ctx.cmd ≠ eCmdCommControl then false
  else if ctx.subfn ≠ eSubfnDiscover then false
  else if ctx.data.length < DISCOVER_MAGIC.length then false
  else ctx.data.take 4 == DISCOVER_MAGIC

theorem ref7_cmd (ctx : FrameCtx) (now : Nat) :
    (ref_state ctx now (7 + ctx.data.length)).req.command_id = ctx.cmd &&& 127 := by
  simp only [ref_state]
  rw [if_pos (by omega)]

theorem ref7_subfn (ctx : FrameCtx) (now : Nat) :
    (ref_state ctx now (7 + ctx.data.length)).req.subfunction_id = ctx.subfn := by
  simp only [ref_state]
  rw [if_pos (by omega)]

theorem ref7_dl (ctx : FrameCtx) (now : Nat) :
    (ref_state ctx now (7 + ctx.data.length)).req.data_length =
      ctx.len_hi <<< 8 ||| ctx.len_lo := by
  simp only [ref_state]
  rw [if_neg (by omega), if_neg (by omega)]

theorem ref7_crc (ctx : FrameCtx) (now : Nat) :
    (ref_state ctx now (7 + ctx.data.length)).req.crc =
      ctx.k3 <<< 24 ||| ctx.k2 <<< 16 ||| ctx.k1 <<< 8 := by
  simp only [ref_state]
  rw [if_neg (by omega), if_neg (by omega), if_neg (by omega)]

theorem ref7_buffer (ctx : FrameCtx) (now : Nat) (j : Nat) (hj : j < ctx.data.length) :
    (ref_state ctx now (7 + ctx.data.length)).buffer j = ctx.data.getD j 0 := by
  simp only [ref_state]
  rw [if_pos (by omega)]

/-- `check_crc` on the fully assembled frame state compares the CRC-32 of
the reconstructed header and payload with the received CRC word. -/
theorem check_crc_st1 (ctx : FrameCtx) (now : Nat) (hwf : ctx.wflen)
    (hcmd : ctx.cmd < 128) (hhi : ctx.len_hi < 256) (hlo : ctx.len_lo < 256) :
    check_crc { ref_state ctx now (7 + ctx.data.length) with
        req := { (ref_state ctx now (7 + ctx.data.length)).req with
          crc := (ref_state ctx now (7 + ctx.data.length)).req.crc ||| ctx.k0 }
        m_state := CommState.idle } =
      (crc32 ([ctx.cmd, ctx.subfn, ctx.len_hi, ctx.len_lo] ++ ctx.data) ==
        ctx.k3 <<< 24 ||| ctx.k2 <<< 16 ||| ctx.k1 <<< 8 ||| ctx.k0) := by
  have hL := hwf.1
  unfold check_crc request_payload
  dsimp only
  rw [ref7_cmd, ref7_subfn, ref7_dl, ref7_crc, land_127_of_lt _ hcmd,
    len_hi_extract _ _ hhi hlo, len_lo_extract _ _ hlo, hL,
    map_range_getD ctx.data _ (fun j hj => ref7_buffer ctx now j hj)]

/-- `check_must_enable` on the fully assembled frame state recognises
exactly an enabling Discover frame. -/
theorem check_must_enable_st1 (ctx : FrameCtx) (now : Nat) (hwf : ctx.wflen)
    (hcmd : ctx.cmd < 128) :
    check_must_enable { ref_state ctx now (7 + ctx.data.length) with
        req := { (ref_state ctx now (7 + ctx.data.length)).req with
          crc := (ref_state ctx now (7 + ctx.data.length)).req.crc ||| ctx.k0 }
        m_state := CommState.idle } = must_enable_frame ctx := by
  have hL := hwf.1
  unfold check_must_enable must_enable_frame
  dsimp only
  rw [ref7_cmd, ref7_subfn, ref7_dl, land_127_of_lt _ hcmd, hL]
  by_cases hc1 : ctx.cmd ≠ eCmdCommControl
  · rw [if_pos hc1, if_pos hc1]
  rw [if_neg hc1, if_neg hc1]
  by_cases hc2 : ctx.subfn ≠ eSubfnDiscover
  · rw [if_pos hc2, if_pos hc2]
  rw [if_neg hc2, if_neg hc2]
  by_cases hc3 : ctx.data.length < DISCOVER_MAGIC.length
  · rw [if_pos hc3, if_pos hc3]
  rw [if_neg hc3, if_neg hc3]
  have h4 : 4 ≤ ctx.data.length := by
    simp only [DISCOVER_MAGIC] at hc3
    simp only [List.length_cons, List.length_nil] at hc3
    omega
  have hmap : (List.range DISCOVER_MAGIC.length).map
      (ref_state ctx now (7 + ctx.data.length)).buffer = ctx.data.take 4 := by
    have hlen4 : DISCOVER_MAGIC.length = 4 := by rfl
    rw [hlen4]
    apply List.ext_getElem
    · simp only [List.length_map, List.length_range, List.length_take]
      omega
    · intro i h1 h2
      simp only [List.getElem_map, List.getElem_range, List.getElem_take]
      have hi4 : i < 4 := by simpa using h1
      rw [ref7_buffer ctx now i (by omega), List.getD_eq_getElem _ _ (by omega)]
  rw [hmap]

/-- Complete-frame outcome: with a matching CRC the frame is accepted
when the handler is enabled or the frame is an enabling Discover, and
silently dropped otherwise; with a CRC mismatch it is always dropped. -/
theorem rx_frame_final_cases (ctx : FrameCtx) (now : Nat) (hwf : ctx.wflen)
    (hcmd : ctx.cmd < 128) (hhi : ctx.len_hi < 256) (hlo : ctx.len_lo < 256) :
    rx_frame_final ctx now =
      (if crc32 ([ctx.cmd, ctx.subfn, ctx.len_hi, ctx.len_lo] ++ ctx.data) ==
          ctx.k3 <<< 24 ||| ctx.k2 <<< 16 ||| ctx.k1 <<< 8 ||| ctx.k0 then
        (if ctx.enabled || must_enable_frame ctx then rx_accept_state ctx now
         else rx_drop_state ctx now)
      else rx_drop_state ctx now) := by
  simp only [rx_frame_final]
  rw [check_crc_st1 ctx now hwf hcmd hhi hlo, check_must_enable_st1 ctx now hwf hcmd]
  have henb : ({ ref_state ctx now (7 + ctx.data.length) with
      req := { (ref_state ctx now (7 + ctx.data.length)).req with
        crc := (ref_state ctx now (7 + ctx.data.length)).req.crc ||| ctx.k0 }
      m_state := CommState.idle } : CommRx).m_enabled = ctx.enabled := rfl
  rw [henb]
  split_ifs with hcrcb hen
  · simp only [rx_accept_state, ref_state, CommRx.mk.injEq, RxRequest.mk.injEq]
    norm_num
    first
      | done
      | (and_intros <;>
          first
            | omega
            | (split_ifs <;> first | omega | rfl)
            | (funext j
               split_ifs <;> first | omega | rfl))
  · simp only [rx_drop_state, reset_rx, ref_state, CommRx.mk.injEq, RxRequest.mk.injEq]
    norm_num
    first
      | done
      | (and_intros <;>
          first
            | omega
            | (split_ifs <;> first | omega | rfl)
            | (funext j
               split_ifs <;> first | omega | rfl))
  · simp only [rx_drop_state, reset_rx, ref_state, CommRx.mk.injEq, RxRequest.mk.injEq]
    norm_num
    first
      | done
      | (and_intros <;>
          first
            | omega
            | (split_ifs <;> first | omega | rfl)
            | (funext j
               split_ifs <;> first | omega | rfl))

/-- Feeding any nonempty chunked prefix of the frame to an idle handler:
the handler walks to the reference state at the prefix's end, or to
`rx_frame_final` if the prefix is the whole frame. -/
theorem process_prefix_chunked (ctx : FrameCtx) (now t0 : Nat)
    (chunks : List (List Nat)) (hwf : ctx.wflen)
    (hne : ∀ ch ∈ chunks, ch ≠ []) (hch : chunks ≠ [])
    (hseg : chunks.flatten = (frame_bytes ctx).take chunks.flatten.length)
    (hlen : chunks.flatten.length ≤ 8 + ctx.data.length) :
    chunks.foldl (process_data now) (idle_state ctx.enabled ctx.buf0 ctx.crc0 t0) =
      (if chunks.flatten.length ≤ 7 + ctx.data.length then
        ref_state ctx now chunks.flatten.length
       else rx_frame_final ctx now) := by
  rcases chunks with _ | ⟨ch, rest⟩
  · exact absurd rfl hch
  have hch1 : ch ≠ [] := hne ch (by simp)
  have hflatlen : (ch :: rest).flatten.length = ch.length + rest.flatten.length := by
    simp [List.flatten_cons]
  have hseg0 : (ch :: rest).flatten =
      ((frame_bytes ctx).drop 0).take (ch :: rest).flatten.length := by
    rw [List.drop_zero]
    exact hseg
  have hsegch : ch = ((frame_bytes ctx).drop 0).take ch.length := by
    have h2 := congrArg (fun l => List.take ch.length l) hseg0
    dsimp only at h2
    rw [List.flatten_cons, List.take_append_of_le_length (le_refl ch.length),
      List.take_length, List.take_take] at h2
    rw [min_eq_left (by simp only [List.flatten_cons, List.length_append]; omega)] at h2
    exact h2
  rw [List.foldl_cons, process_data_idle ctx now t0 ch hch1,
    rx_loop_on_frame ctx now 0 ch ch.length hwf hch1 (by omega)
      (by rw [hflatlen] at hlen; omega) hsegch]
  by_cases hmid : ch.length ≤ 7 + ctx.data.length
  · rw [if_pos hmid]
    have hsegrest : rest.flatten =
        ((frame_bytes ctx).drop ch.length).take rest.flatten.length := by
      have h3 := seg_drop (frame_bytes ctx) (ch :: rest).flatten 0 ch.length hseg0
      rw [List.flatten_cons, List.drop_left] at h3
      simpa using h3
    have h := fold_process_ref ctx now hwf rest ch.length (ch :: rest).flatten.length
      (fun c hcm => hne c (by simp [hcm])) hmid (by omega) hlen hsegrest
    exact h
  · rw [if_neg hmid]
    have hrest : rest = [] := by
      rcases rest with _ | ⟨c2, r2⟩
      · rfl
      · exfalso
        have hc2 : c2 ≠ [] := hne c2 (by simp)
        have hc2l : 1 ≤ c2.length := List.length_pos.mpr hc2
        rw [hflatlen] at hlen
        simp only [List.flatten_cons, List.length_append] at hlen
        omega
    subst hrest
    simp only [List.foldl_nil]
    rw [hflatlen]
    rw [if_neg (by simp only [List.flatten_nil, List.length_nil]; omega)]

/-- The loop guard states imply no pending request. -/
theorem guard_rr {st : CommRx}
    (h : ¬(st.m_request_received = true ∨ st.m_rx_state = RxFSMState.error)) :
    st.m_request_received = false := by
  simp only [not_or] at h
  simpa using h.1

/-- The byte loop never clears the enable flag: every transition copies
it, and the accept transition sets it to `true`. -/
theorem rx_loop_enabled_mono (now : Nat) (st : CommRx) (bytes : List Nat) :
    st.m_enabled = true → (rx_loop now st bytes).m_enabled = true := by
  induction st, bytes using rx_loop.induct now with
  | case1 st =>
    intro hen
    rw [rx_loop_nil]
    exact hen
  | case2 st b rest h1 =>
    intro hen
    rw [rx_loop_stuck now st (b :: rest) (h1.elim Or.inl (fun h => Or.inr (Or.inl h)))]
    exact hen
  | case3 st b rest h1 h2 IH =>
    intro hen
    rw [rx_loop_waitCmd now st b rest h2 (guard_rr h1)]
    exact IH hen
  | case4 st b rest h1 h2 h3 IH =>
    intro hen
    rw [rx_loop_waitSubfn now st b rest h3 (guard_rr h1)]
    exact IH hen
  | case5 st b h1 h2 h3 h4 h5 b2 rest2 dl IH =>
    intro hen
    rw [rx_loop_waitLength_two now st b b2 rest2 h4 (guard_rr h1) h5]
    exact IH hen
  | case6 st b h1 h2 h3 h4 h5 IH =>
    intro hen
    rw [rx_loop_waitLength_hi now st b h4 (guard_rr h1) h5]
    exact hen
  | case7 st b rest h1 h2 h3 h4 h5 dl IH =>
    intro hen
    rw [rx_loop_waitLength_lo now st b rest h4 (guard_rr h1) h5]
    exact IH hen
  | case8 st b rest h1 h2 h3 h4 h5 h6 =>
    intro hen
    rw [rx_loop_waitData_overflow now st b rest h5 (guard_rr h1) h6]
    exact hen
  | case9 st b rest h1 h2 h3 h4 h5 h6 avail missing k IH =>
    intro hen
    rw [rx_loop_waitData_bulk now st b rest h5 (guard_rr h1) h6]
    exact IH hen
  | case10 st b rest h1 h2 h3 h4 h5 h6 h7 IH =>
    intro hen
    rw [rx_loop_waitCRC_0 now st b rest h6 (guard_rr h1) h7]
    exact IH hen
  | case11 st b rest h1 h2 h3 h4 h5 h6 h7 h8 IH =>
    intro hen
    rw [rx_loop_waitCRC_1 now st b rest h6 (guard_rr h1) h8]
    exact IH hen
  | case12 st b rest h1 h2 h3 h4 h5 h6 h7 h8 h9 IH =>
    intro hen
    rw [rx_loop_waitCRC_2 now st b rest h6 (guard_rr h1) h9]
    exact IH hen
  | case13 st b rest h1 h2 h3 h4 h5 h6 h7 h8 h9 st1 st2 IH =>
    intro hen
    rw [rx_loop_waitCRC_final now st b rest h6 (guard_rr h1) h7 h8 h9]
    have hst2 : st2.m_enabled = true := by
      unfold_let st2
      split_ifs
      · rfl
      · unfold_let st1
        exact hen
      · unfold_let st1
        exact hen
    exact IH hst2
  | case14 st b rest h1 h2 h3 h4 h5 h6 =>
    intro hen
    rw [rx_loop.eq_def]
    dsimp only
    rw [if_neg h1, if_neg h2, if_neg h3, if_neg h4, if_neg h5, if_neg h6]
    exact hen

/-- `process_data` never clears the enable flag. -/
theorem process_data_enabled_mono (now : Nat) (st : CommRx) (data : List Nat)
    (hen : st.m_enabled = true) : (process_data now st data).m_enabled = true := by
  unfold process_data
  by_cases ht : st.m_state = CommState.transmitting
  · rw [if_pos ht]
    exact hen
  · rw [if_neg ht]
    dsimp only
    apply rx_loop_enabled_mono
    split_ifs <;> exact hen

/-- Folding `process_data` over any chunk list never clears the enable
flag: once true it stays true (the agent keeps it until reset). -/
theorem fold_process_enabled_mono (now : Nat) (chunks : List (List Nat)) :
    ∀ st : CommRx, st.m_enabled = true →
      (chunks.foldl (process_data now) st).m_enabled = true := by
  induction chunks with
  | nil =>
    intro st hen
    simpa using hen
  | cons ch rest IH =>
    intro st hen
    rw [List.foldl_cons]
    exact IH _ (process_data_enabled_mono now st ch hen)

/-- The `Request` handed to `MainHandler::process_request` when the
CommHandler reports a received request (`comm().get_request()`): header
fields plus the first `data_length` buffer bytes. -/
def to_request (st : CommRx) : Request :=
  ⟨st.req.command_id, st.req.subfunction_id, request_payload st, st.req.valid⟩

/-- C2: for every well-formed request frame with a correct CRC, delivered
in any byte-chunking pattern to an enabled idle CommHandler, exactly one
valid Request record is produced (none before the final byte), and its
command id, subfunction id, data length and payload equal the frame's. -/
theorem C2_any_chunking_single_matching_request
    (ctx : FrameCtx) (now t0 : Nat) (chunks : List (List Nat))
    (hwf : ctx.wflen) (hen : ctx.enabled = true)
    (hcmd : ctx.cmd < 128) (hhi : ctx.len_hi < 256) (hlo : ctx.len_lo < 256)
    (hcrc : crc32 ([ctx.cmd, ctx.subfn, ctx.len_hi, ctx.len_lo] ++ ctx.data) =
      ctx.k3 <<< 24 ||| ctx.k2 <<< 16 ||| ctx.k1 <<< 8 ||| ctx.k0)
    (hne : ∀ ch ∈ chunks, ch ≠ [])
    (hflat : chunks.flatten = frame_bytes ctx) :
    ((chunks.foldl (process_data now)
        (idle_state ctx.enabled ctx.buf0 ctx.crc0 t0)).m_request_received = true ∧
      (chunks.foldl (process_data now)
        (idle_state ctx.enabled ctx.buf0 ctx.crc0 t0)).req.valid = true ∧
      (chunks.foldl (process_data now)
        (idle_state ctx.enabled ctx.buf0 ctx.crc0 t0)).req.command_id = ctx.cmd ∧
      (chunks.foldl (process_data now)
        (idle_state ctx.enabled ctx.buf0 ctx.crc0 t0)).req.subfunction_id = ctx.subfn ∧
      (chunks.foldl (process_data now)
        (idle_state ctx.enabled ctx.buf0 ctx.crc0 t0)).req.data_length = ctx.data.length ∧
      request_payload (chunks.foldl (process_data now)
        (idle_state ctx.enabled ctx.buf0 ctx.crc0 t0)) = ctx.data) ∧
    (∀ i < chunks.length,
      ((chunks.take i).foldl (process_data now)
        (idle_state ctx.enabled ctx.buf0 ctx.crc0 t0)).m_request_received = false) := by
  rw [process_frame_chunked ctx now t0 chunks hwf hne hflat,
    rx_frame_final_cases ctx now hwf hcmd hhi hlo,
    if_pos (beq_iff_eq.mpr hcrc), if_pos (by rw [hen]; simp)]
  constructor
  · refine ⟨rfl, rfl, ?_, rfl, ?_, ?_⟩
    · simp only [rx_accept_state]
      exact land_127_of_lt _ hcmd
    · simp only [rx_accept_state]
      exact hwf.1
    · unfold request_payload
      simp only [rx_accept_state]
      rw [hwf.1]
      exact map_range_getD ctx.data _ (fun j hj => by rw [if_pos hj])
  · intro i hi
    rcases Nat.eq_zero_or_pos i with h0 | hpos
    · subst h0
      simp only [List.take_zero, List.foldl_nil]
      rfl
    · have htake_ne : chunks.take i ≠ [] := by
        intro hnil
        have h := congrArg List.length hnil
        rw [List.length_take] at h
        simp only [List.length_nil] at h
        omega
      have hne2 : ∀ ch ∈ chunks.take i, ch ≠ [] :=
        fun c hc => hne c (List.mem_of_mem_take hc)
      have hsplit : (chunks.take i).flatten ++ (chunks.drop i).flatten = frame_bytes ctx := by
        rw [← List.flatten_append, List.take_append_drop, hflat]
      have hlenf := congrArg List.length hsplit
      rw [frame_bytes_length] at hlenf
      simp only [List.length_append] at hlenf
      have hlen8 : (chunks.take i).flatten.length ≤ 7 + ctx.data.length := by
        rcases hd : chunks.drop i with _ | ⟨c2, r2⟩
        · exfalso
          have h := congrArg List.length hd
          rw [List.length_drop] at h
          simp only [List.length_nil] at h
          omega
        · have hc2 : c2 ≠ [] := hne c2 (List.mem_of_mem_drop (by rw [hd]; simp))
          have hc2l : 1 ≤ c2.length := List.length_pos.mpr hc2
          rw [hd] at hlenf
          simp only [List.flatten_cons, List.length_append] at hlenf
          omega
      have hseg2 : (chunks.take i).flatten =
          (frame_bytes ctx).take (chunks.take i).flatten.length := by
        rw [← hsplit, List.take_append_of_le_length (le_refl _), List.take_length]
      have h := process_prefix_chunked ctx now t0 (chunks.take i) hwf hne2 htake_ne
        hseg2 (by omega)
      rw [if_pos hlen8] at h
      rw [h]
      rfl

/-- `must_enable_frame` holds exactly for a Discover frame whose payload
is at least 4 bytes and starts with `DISCOVER_MAGIC`. -/
theorem must_enable_frame_iff (ctx : FrameCtx) :
    must_enable_frame ctx = true ↔
      (ctx.cmd = eCmdCommControl ∧ ctx.subfn = eSubfnDiscover ∧
        4 ≤ ctx.data.length ∧ ctx.data.take 4 = DISCOVER_MAGIC) := by
  unfold must_enable_frame
  split_ifs with hA hB hC
  · exact iff_of_false (by simp) (fun h => hA h.1)
  · exact iff_of_false (by simp) (fun h => hB h.2.1)
  · refine iff_of_false (by simp) (fun h => ?_)
    simp only [DISCOVER_MAGIC, List.length_cons, List.length_nil] at hC
    omega
  · constructor
    · intro h
      refine ⟨not_not.mp hA, not_not.mp hB, ?_, beq_iff_eq.mp h⟩
      simp only [DISCOVER_MAGIC, List.length_cons, List.length_nil] at hC
      omega
    · intro h
      exact beq_iff_eq.mpr h.2.2.2

/-- C3: while the handler is disabled, a CRC-valid frame enables it iff
it is a CommControl Discover whose payload starts with `DISCOVER_MAGIC`;
every other CRC-valid frame is silently dropped (no request record, no
valid flag — hence nothing is dispatched or answered); and the enable
flag, once true, is never cleared by any input. -/
theorem C3_enable_only_by_discover_magic :
    (∀ (now : Nat) (st : CommRx) (bytes : List Nat), st.m_enabled = true →
      (process_data now st bytes).m_enabled = true) ∧
    (∀ (ctx : FrameCtx) (now t0 : Nat) (chunks : List (List Nat)),
      ctx.wflen → ctx.enabled = false →
      ctx.cmd < 128 → ctx.len_hi < 256 → ctx.len_lo < 256 →
      crc32 ([ctx.cmd, ctx.subfn, ctx.len_hi, ctx.len_lo] ++ ctx.data) =
        ctx.k3 <<< 24 ||| ctx.k2 <<< 16 ||| ctx.k1 <<< 8 ||| ctx.k0 →
      (∀ ch ∈ chunks, ch ≠ []) → chunks.flatten = frame_bytes ctx →
      (((chunks.foldl (process_data now)
          (idle_state ctx.enabled ctx.buf0 ctx.crc0 t0)).m_enabled = true ↔
        (ctx.cmd = eCmdCommControl ∧ ctx.subfn = eSubfnDiscover ∧
          4 ≤ ctx.data.length ∧ ctx.data.take 4 = DISCOVER_MAGIC)) ∧
       (¬(ctx.cmd = eCmdCommControl ∧ ctx.subfn = eSubfnDiscover ∧
          4 ≤ ctx.data.length ∧ ctx.data.take 4 = DISCOVER_MAGIC) →
        (chunks.foldl (process_data now)
          (idle_state ctx.enabled ctx.buf0 ctx.crc0 t0)).m_request_received = false ∧
        (chunks.foldl (process_data now)
          (idle_state ctx.enabled ctx.buf0 ctx.crc0 t0)).req.valid = false))) := by
  refine ⟨process_data_enabled_mono, ?_⟩
  intro ctx now t0 chunks hwf hdis hcmd hhi hlo hcrc hne hflat
  rw [process_frame_chunked ctx now t0 chunks hwf hne hflat,
    rx_frame_final_cases ctx now hwf hcmd hhi hlo,
    if_pos (beq_iff_eq.mpr hcrc), hdis, Bool.false_or]
  constructor
  · by_cases hm : must_enable_frame ctx = true
    · rw [if_pos hm]
      exact iff_of_true rfl ((must_enable_frame_iff ctx).mp hm)
    · rw [if_neg hm]
      simp only [rx_drop_state, hdis]
      constructor
      · intro h
        exact absurd h.symm (by simp)
      · intro h
        exact absurd ((must_enable_frame_iff ctx).mpr h) hm
  · intro hnot
    have hm : ¬ must_enable_frame ctx = true :=
      fun h => hnot ((must_enable_frame_iff ctx).mp h)
    rw [if_neg hm]
    exact ⟨rfl, rfl⟩

/-- The frame of claim C10: CommControl Discover, `data_length = 4`,
payload exactly `DISCOVER_MAGIC` (no challenge), correct CRC
(`crc32 [2,1,0,4,7E,18,FC,68] = 0x16451DC = 22·2²⁴ ∨ 69·2¹⁶ ∨ 23·2⁸ ∨ 220`). -/
def c10_ctx (buf0 : Nat → Nat) (crc0 : Nat) : FrameCtx :=
  { enabled := false
    buf0 := buf0
    crc0 := crc0
    cmd := eCmdCommControl
    subfn := eSubfnDiscover
    len_hi := 0
    len_lo := 4
    data := DISCOVER_MAGIC
    k3 := 22
    k2 := 69
    k1 := 23
    k0 := 220 }

set_option maxRecDepth 10000 in
/-- C10: while disabled, the CRC-valid magic-only Discover frame (4 data
bytes, no challenge) enables the handler and is accepted as a request —
which the dispatcher then answers InvalidRequest, because decoding a
Discover request demands exactly 8 data bytes. -/
theorem C10_magic_only_discover_enables_then_invalid
    (buf0 : Nat → Nat) (crc0 now t0 : Nat) (chunks : List (List Nat))
    (hne : ∀ ch ∈ chunks, ch ≠ [])
    (hflat : chunks.flatten = frame_bytes (c10_ctx buf0 crc0)) :
    (chunks.foldl (process_data now)
      (idle_state false buf0 crc0 t0)).m_enabled = true ∧
    (chunks.foldl (process_data now)
      (idle_state false buf0 crc0 t0)).m_request_received = true ∧
    (∀ (P : BuildParams) (now2 sid : Nat) (st : MainState),
      (process_request P now2 sid st (to_request (chunks.foldl (process_data now)
        (idle_state false buf0 crc0 t0)))).1.response_code =
          eResponseCode_InvalidRequest) := by
  have hfold : chunks.foldl (process_data now) (idle_state false buf0 crc0 t0) =
      rx_accept_state (c10_ctx buf0 crc0) now := by
    have h := process_frame_chunked (c10_ctx buf0 crc0) now t0 chunks
      ⟨by simp only [c10_ctx]; decide, by simp only [c10_ctx]; decide⟩ hne hflat
    rw [rx_frame_final_cases _ now
        ⟨by simp only [c10_ctx]; decide, by simp only [c10_ctx]; decide⟩
        (by simp only [c10_ctx]; decide) (by simp only [c10_ctx]; decide)
        (by simp only [c10_ctx]; decide),
      if_pos (by simp only [c10_ctx]; decide),
      if_pos (by simp only [c10_ctx, must_enable_frame]; decide)] at h
    exact h
  have hpay : request_payload (rx_accept_state (c10_ctx buf0 crc0) now) =
      DISCOVER_MAGIC := by
    unfold request_payload
    simp only [rx_accept_state, c10_ctx]
    rw [show (0 <<< 8 ||| 4 : Nat) = 4 from by decide,
      show (4 : Nat) = DISCOVER_MAGIC.length from by decide]
    apply map_range_getD
    intro j hj
    rw [if_pos hj]
  have hreq : to_request (rx_accept_state (c10_ctx buf0 crc0) now) =
      ⟨eCmdCommControl, eSubfnDiscover, DISCOVER_MAGIC, true⟩ := by
    unfold to_request
    rw [hpay]
    simp only [rx_accept_state, c10_ctx, Request.mk.injEq]
    and_intros <;> decide
  refine ⟨by rw [hfold]; rfl, by rw [hfold]; rfl, ?_⟩
  intro P now2 sid st
  rw [hfold, hreq]
  unfold process_request process_comm_control
  norm_num [eCmdGetInfo, eCmdCommControl, eCmdMemoryControl, eSubfnDiscover,
    eResponseCode_OK, eResponseCode_InvalidRequest, DISCOVER_MAGIC]

set_option maxRecDepth 10000 in
/-- Witness for C2: the CRC-valid GetInfo frame `01 01 00 00 98 3A D2 4E`
delivered in two uneven chunks yields a pending request with an empty
payload. -/
theorem C2_witness :
    (([[1, 1, 0], [0, 152, 58, 210, 78]] : List (List Nat)).foldl (process_data 5)
      (idle_state true (fun _ => 0) 0 7)).m_request_received = true ∧
    request_payload (([[1, 1, 0], [0, 152, 58, 210, 78]] : List (List Nat)).foldl
      (process_data 5) (idle_state true (fun _ => 0) 0 7)) = [] := by
  have h := C2_any_chunking_single_matching_request
    ⟨true, fun _ => 0, 0, 1, 1, 0, 0, [], 152, 58, 210, 78⟩ 5 7
    [[1, 1, 0], [0, 152, 58, 210, 78]]
    ⟨by decide, by decide⟩ rfl (by decide) (by decide) (by decide) (by decide)
    (by decide) (by decide)
  exact ⟨h.1.1, h.1.2.2.2.2.2⟩

set_option maxRecDepth 10000 in
/-- Witness for C3: while disabled, the CRC-valid GetInfo frame
`01 01 00 00 98 3A D2 4E` is silently dropped — no request record. -/
theorem C3_witness :
    (([[1, 1, 0, 0, 152, 58, 210, 78]] : List (List Nat)).foldl (process_data 5)
      (idle_state false (fun _ => 0) 0 7)).m_request_received = false ∧
    (([[1, 1, 0, 0, 152, 58, 210, 78]] : List (List Nat)).foldl (process_data 5)
      (idle_state false (fun _ => 0) 0 7)).req.valid = false := by
  have h := C3_enable_only_by_discover_magic.2
    ⟨false, fun _ => 0, 0, 1, 1, 0, 0, [], 152, 58, 210, 78⟩ 5 7
    [[1, 1, 0, 0, 152, 58, 210, 78]]
    ⟨by decide, by decide⟩ rfl (by decide) (by decide) (by decide) (by decide)
    (by decide) (by decide)
  exact h.2 (by decide)

set_option maxRecDepth 10000 in
/-- Witness for C10: the magic-only Discover frame
`02 01 00 04 7E 18 FC 68 16 45 17 DC` delivered byte-split enables the
handler, and dispatching the resulting request answers InvalidRequest. -/
theorem C10_witness :
    (([[2, 1, 0], [4, 126, 24, 252, 104, 22, 69], [23, 220]] : List (List Nat)).foldl
      (process_data 5) (idle_state false (fun _ => 0) 0 7)).m_enabled = true ∧
    (process_request ⟨4, 256, 256, 0, 3000000, 50000, [], [], []⟩ 9 11
      ⟨⟨false, 0, 0⟩, false, fun _ => 0⟩
      (to_request (([[2, 1, 0], [4, 126, 24, 252, 104, 22, 69], [23, 220]] :
        List (List Nat)).foldl (process_data 5)
        (idle_state false (fun _ => 0) 0 7)))).1.response_code =
      eResponseCode_InvalidRequest := by
  have h := C10_magic_only_discover_enables_then_invalid (fun _ => 0) 0 5 7
    [[2, 1, 0], [4, 126, 24, 252, 104, 22, 69], [23, 220]]
    (by decide) (by decide)
  exact ⟨h.1, h.2.2 ⟨4, 256, 256, 0, 3000000, 50000, [], [], []⟩ 9 11
    ⟨⟨false, 0, 0⟩, false, fun _ => 0⟩⟩

/-- Witness for C5: a 5-byte Write payload (too short for even one
4-byte-address record) answers InvalidRequest and leaves memory as it
was. -/
theorem C5_witness :
    (process_memory_control 4 256 [] [] (fun _ => 0) eSubfnWrite
      [0, 0, 0, 1, 0]).code = eResponseCode_InvalidRequest ∧
    (process_memory_control 4 256 [] [] (fun _ => 0) eSubfnWrite
      [0, 0, 0, 1, 0]).mem = (fun _ => 0) :=
  C5_write_truncated_invalid_and_read_overflow.1 4 256 [] [] (fun _ => 0)
    [] [0, 0, 0, 1, 0] (by simp) (by decide) (Or.inl (by decide))

/-- Witness for C9: of a two-block Write whose second block sits in the
forbidden range, the first block is written, the second fails the
request with Forbidden. -/
theorem C9_witness :
    (process_memory_control 4 256 [⟨1000, 2000, true⟩] [] (fun _ => 0) eSubfnWrite
      [0, 0, 0, 100, 0, 1, 7, 0, 0, 3, 232, 0, 1, 9]).code = eResponseCode_Forbidden ∧
    (process_memory_control 4 256 [⟨1000, 2000, true⟩] [] (fun _ => 0) eSubfnWrite
      [0, 0, 0, 100, 0, 1, 7, 0, 0, 3, 232, 0, 1, 9]).performed = [0] := by
  have hv : write_blocks_layout_valid 4
      [0, 0, 0, 100, 0, 1, 7, 0, 0, 3, 232, 0, 1, 9] = true := by
    rw [write_blocks_layout_valid]
    norm_num [block_len_field]
    rw [write_blocks_layout_valid]
    norm_num [block_len_field]
    all_goals decide
  have hbs : write_blocks 4 [0, 0, 0, 100, 0, 1, 7, 0, 0, 3, 232, 0, 1, 9] =
      [(100, 1, [7]), (1000, 1, [9])] := by
    rw [write_blocks]
    norm_num [block_len_field, decode_address_big_endian]
    rw [write_blocks]
    norm_num [block_len_field, decode_address_big_endian]
    rw [write_blocks]
    norm_num
    all_goals decide
  have h := C9_write_first_failure_keeps_earlier_writes 4 256 [⟨1000, 2000, true⟩] []
    (fun _ => 0) [0, 0, 0, 100, 0, 1, 7, 0, 0, 3, 232, 0, 1, 9] 1 hv
    (by rw [hbs]; decide)
    (fun j hj => by
      have hj0 : j = 0 := by omega
      subst hj0
      rw [hbs]
      decide)
    (by rw [hbs]; decide)
  refine ⟨h.1.trans (by rw [hbs]; decide), h.2.1.trans (by decide)⟩

end Scrutiny
